import Mathlib

/-!
Verification development for the budget-tracker backend.

This file shallowly embeds the core of the repository in Lean 4:

* `budget/csv_utils.py`: the date parser `_parse_date`, the amount parser
  `_parse_amount`, and the schema mapper `apply_schema_to_transaction`;
* `budget/views.py`: the re-process pass `FileUploadViewSet.process`, the
  summary report builder `_build_summary_sections`, and the monthly pivot
  `CashFlowStatementViewSet.monthly`;
* `budget/management/commands/seed_location_classifications.py`: the
  sign-to-type heuristic and the vote/resolve/conflict logic.

Python `decimal.Decimal` values are modelled as `Rat` (the code only builds
finite decimals from CSV text and adds/negates them, which is exact rational
arithmetic).  Python `datetime` values are modelled as a record of numeric
fields.  Python dicts (which preserve insertion order) are modelled as
association lists with in-place update and append-on-miss.  String handling
is restricted to ASCII whitespace and ASCII digits, matching the inputs the
repository processes; `str.strip` is modelled by `String.trim`.
-/

namespace Budget

/-! ### Python helpers -/

/-- Value of an ASCII digit character. -/
def digitVal (c : Char) : Nat := c.toNat - 48

/-- ASCII digit character for a value below ten. -/
def digitChar (d : Nat) : Char := Char.ofNat (48 + d)

/-- Python `x or default` for an optional string: `None` and the empty
string are falsy and give the default. -/
def pyOrStr (v : Option String) (d : String) : String :=
  match v with
  | some s => if s = "" then d else s
  | none => d

/-- Python `x or Decimal('0')` for an optional amount (`Decimal('0')` is
falsy, but the branch then returns the same value, so `getD 0` is exact). -/
def pyOrRat (v : Option Rat) : Rat := v.getD 0

/-- Python `str.strip` on a character list: drop ASCII whitespace from
both ends. -/
def pyStripChars (cs : List Char) : List Char :=
  ((cs.dropWhile Char.isWhitespace).reverse.dropWhile Char.isWhitespace).reverse

/-- Python `str.strip` on a string. -/
def pyStrip (s : String) : String := String.mk (pyStripChars s.toList)

/-! ### Amount parser (`csv_utils._parse_amount`)

`_parse_amount` strips the string, removes `,`, `$` and spaces, and calls
`Decimal(cleaned)` under a `try/except InvalidOperation`.  We model the
`Decimal` string constructor restricted to finite numeric literals:
optional sign, digits with an optional fractional part, and an optional
exponent, after removing underscores and surrounding whitespace (per the
Python documentation of the constructor).  The special values `NaN` and
`Infinity` and non-ASCII digits are outside the inputs considered here. -/

/-- Longest prefix of ASCII digits of a character list, as digit values. -/
def takeDigits : List Char → List Nat × List Char
  | [] => ([], [])
  | c :: cs =>
    if c.isDigit then
      let p := takeDigits cs
      (digitVal c :: p.1, p.2)
    else ([], c :: cs)

/-- Numeric value of a digit list read most-significant first. -/
def digitsVal (ds : List Nat) : Nat := ds.foldl (fun acc d => 10 * acc + d) 0

/-- Optional leading sign; returns `true` for a minus sign. -/
def parseSign (cs : List Char) : Bool × List Char :=
  match cs with
  | [] => (false, [])
  | c :: rest =>
    if c = '-' then (true, rest)
    else if c = '+' then (false, rest)
    else (false, c :: rest)

/-- Ten to an integer power, as a rational. -/
def ratPow10 (e : Int) : Rat :=
  if 0 ≤ e then (10 : Rat) ^ e.toNat else 1 / (10 : Rat) ^ (-e).toNat

/-- Exponent part after the `e`/`E` indicator: optional sign then digits,
consuming the whole rest of the string. -/
def parseExpPart (cs : List Char) : Option Int :=
  let p := parseSign cs
  let q := takeDigits p.2
  if q.1 = [] ∨ q.2 ≠ [] then none
  else some (if p.1 then -(digitsVal q.1 : Int) else (digitsVal q.1 : Int))

/-- Finish a mantissa: empty rest, or an exponent part. -/
def finishMantissa (neg : Bool) (m : Rat) : List Char → Option Rat
  | [] => some (if neg then -m else m)
  | c :: cs =>
    if c = 'e' ∨ c = 'E' then
      (parseExpPart cs).map fun e => (if neg then -m else m) * ratPow10 e
    else none

/-- Model of the `decimal.Decimal` string constructor on finite numeric
literals: underscores removed, surrounding whitespace stripped, then
`[sign] (digits [. digits] | . digits) [exponent]`. -/
def pyDecimalOfString (s : String) : Option Rat :=
  let cs0 := s.toList.filter (fun c => c ≠ '_')
  let cs1 := (cs0.dropWhile Char.isWhitespace).reverse.dropWhile Char.isWhitespace |>.reverse
  let p := parseSign cs1
  let ip := takeDigits p.2
  match ip.2 with
  | '.' :: r2 =>
    let fp := takeDigits r2
    if ip.1 = [] ∧ fp.1 = [] then none
    else
      finishMantissa p.1
        ((digitsVal ip.1 : Rat) + (digitsVal fp.1 : Rat) / (10 : Rat) ^ fp.1.length) fp.2
  | _ =>
    if ip.1 = [] then none
    else finishMantissa p.1 (digitsVal ip.1 : Rat) ip.2

/-- Cleaning step of `_parse_amount`:
`str(value).strip().replace(",", "").replace("$", "").replace(" ", "")`.
Each `replace` removes every occurrence of a single character, so the
three in sequence equal one filter excluding the three characters. -/
def cleanAmount (value : String) : String :=
  String.mk ((pyStripChars value.toList).filter fun c => ¬(c = ',' ∨ c = '$' ∨ c = ' '))

/-- Model of `csv_utils._parse_amount`: `None` passes through, the cleaned
string must be non-empty, then the decimal constructor is tried and an
invalid literal yields `None` (the caught `InvalidOperation`).  The
function is total: no exception reaches the caller. -/
def _parse_amount (value : Option String) : Option Rat :=
  match value with
  | none => none
  | some v =>
    let cleaned := cleanAmount v
    if cleaned = "" then none
    else pyDecimalOfString cleaned

/-! ### Date parser (`csv_utils._parse_date`)

`datetime.strptime` compiles each format directive to a regular expression
fragment (CPython `_strptime.py`) and requires the whole string to be
consumed.  In the six formats used here every numeric directive is followed
by a non-digit literal or the end of the string, so the regex backtracking
between the two-digit and one-digit readings of a directive is equivalent
to trying the two-digit reading first and falling back to one digit; the
matchers below implement exactly the value sets of the CPython fragments
(`%m`: `1[0-2]|0[1-9]|[1-9]`, `%d`: `3[01]|[12]\d|0[1-9]|[1-9]`,
`%H`: `2[0-3]|[0-1]\d|\d`, `%M`: `[0-5]\d|\d`, `%S`: `6[0-1]|[0-5]\d|\d`,
`%Y`: four digits, `%y`: two digits).  Literals match case-insensitively
(CPython compiles with `re.IGNORECASE`). -/

structure PyDateTime where
  year : Nat
  month : Nat
  day : Nat
  hour : Nat
  minute : Nat
  second : Nat
deriving DecidableEq, Repr

/-- Format directives appearing in the six formats of `_parse_date`. -/
inductive FmtDir where
  | lit (c : Char)
  | fY
  | fy
  | fm
  | fd
  | fH
  | fMin
  | fS
deriving DecidableEq, Repr

/-- Fields collected while matching a format. -/
structure StrpAcc where
  y : Option Nat
  m : Option Nat
  d : Option Nat
  hh : Option Nat
  mm : Option Nat
  ss : Option Nat
deriving DecidableEq, Repr

def emptyAcc : StrpAcc := ⟨none, none, none, none, none, none⟩

/-- Match a two-digit reading if allowed, else a one-digit reading. -/
def matchTwoOrOne (twoOK oneOK : Nat → Bool) : List Char → Option (Nat × List Char)
  | a :: b :: rest =>
    if a.isDigit && b.isDigit && twoOK (10 * digitVal a + digitVal b) then
      some (10 * digitVal a + digitVal b, rest)
    else if a.isDigit && oneOK (digitVal a) then some (digitVal a, b :: rest)
    else none
  | [a] => if a.isDigit && oneOK (digitVal a) then some (digitVal a, []) else none
  | [] => none

/-- Match exactly `n` digits, accumulating their value. -/
def takeExactDigits (acc : Nat) : Nat → List Char → Option (Nat × List Char)
  | 0, cs => some (acc, cs)
  | n + 1, c :: cs =>
    if c.isDigit then takeExactDigits (10 * acc + digitVal c) n cs else none
  | _ + 1, [] => none

/-- Match one directive, updating the collected fields. -/
def matchDir : FmtDir → List Char → StrpAcc → Option (StrpAcc × List Char)
  | .lit l, c :: cs, acc => if c.toLower = l.toLower then some (acc, cs) else none
  | .lit _, [], _ => none
  | .fY, cs, acc => (takeExactDigits 0 4 cs).map fun p => ({ acc with y := some p.1 }, p.2)
  | .fy, cs, acc =>
    (takeExactDigits 0 2 cs).map fun p =>
      ({ acc with y := some (if p.1 ≤ 68 then 2000 + p.1 else 1900 + p.1) }, p.2)
  | .fm, cs, acc =>
    (matchTwoOrOne (fun v => 1 ≤ v && v ≤ 12) (fun v => 1 ≤ v) cs).map fun p =>
      ({ acc with m := some p.1 }, p.2)
  | .fd, cs, acc =>
    (matchTwoOrOne (fun v => 1 ≤ v && v ≤ 31) (fun v => 1 ≤ v) cs).map fun p =>
      ({ acc with d := some p.1 }, p.2)
  | .fH, cs, acc =>
    (matchTwoOrOne (fun v => v ≤ 23) (fun _ => true) cs).map fun p =>
      ({ acc with hh := some p.1 }, p.2)
  | .fMin, cs, acc =>
    (matchTwoOrOne (fun v => v ≤ 59) (fun _ => true) cs).map fun p =>
      ({ acc with mm := some p.1 }, p.2)
  | .fS, cs, acc =>
    (matchTwoOrOne (fun v => v ≤ 61) (fun _ => true) cs).map fun p =>
      ({ acc with ss := some p.1 }, p.2)

/-- Run a whole format; the input must be fully consumed (CPython raises
`ValueError: unconverted data remains` otherwise). -/
def runFmt : List FmtDir → List Char → StrpAcc → Option StrpAcc
  | [], [], acc => some acc
  | [], _ :: _, _ => none
  | f :: fs, cs, acc =>
    match matchDir f cs acc with
    | some p => runFmt fs p.2 p.1
    | none => none

/-- Gregorian leap year. -/
def isLeap (y : Nat) : Bool := y % 4 = 0 && (y % 100 ≠ 0 || y % 400 = 0)

/-- Days in a month. -/
def daysInMonth (y m : Nat) : Nat :=
  if m = 2 then (if isLeap y then 29 else 28)
  else if m = 4 ∨ m = 6 ∨ m = 9 ∨ m = 11 then 30
  else 31

/-- Build the `datetime` from collected fields with CPython defaults
(year 1900, month 1, day 1) and the constructor's range checks (year
1..9999, day within the month, second below 60); a violation is the
`ValueError` the caller catches. -/
def mkDateTime (acc : StrpAcc) : Option PyDateTime :=
  let y := acc.y.getD 1900
  let m := acc.m.getD 1
  let d := acc.d.getD 1
  let hh := acc.hh.getD 0
  let mm := acc.mm.getD 0
  let ss := acc.ss.getD 0
  if 1 ≤ y ∧ y ≤ 9999 ∧ 1 ≤ d ∧ d ≤ daysInMonth y m ∧ ss ≤ 59 then
    some ⟨y, m, d, hh, mm, ss⟩
  else none

/-- Model of `datetime.strptime(value, fmt)` for the six fixed formats. -/
def strptime (fmt : List FmtDir) (cs : List Char) : Option PyDateTime :=
  (runFmt fmt cs emptyAcc).bind mkDateTime

def fmtISO : List FmtDir := [.fY, .lit '-', .fm, .lit '-', .fd]
def fmtMDY4 : List FmtDir := [.fm, .lit '/', .fd, .lit '/', .fY]
def fmtMDY2 : List FmtDir := [.fm, .lit '/', .fd, .lit '/', .fy]
def fmtISOT : List FmtDir :=
  [.fY, .lit '-', .fm, .lit '-', .fd, .lit 'T', .fH, .lit ':', .fMin, .lit ':', .fS]
def fmtMDY4dash : List FmtDir := [.fm, .lit '-', .fd, .lit '-', .fY]
def fmtDMY4 : List FmtDir := [.fd, .lit '/', .fm, .lit '/', .fY]

/-- The ordered format list of `_parse_date`. -/
def DATE_FORMATS : List (List FmtDir) :=
  [fmtISO, fmtMDY4, fmtMDY2, fmtISOT, fmtMDY4dash, fmtDMY4]

/-- The `for fmt in formats: try ... except ValueError: continue` loop. -/
def tryFormats : List (List FmtDir) → List Char → Option PyDateTime
  | [], _ => none
  | f :: fs, cs =>
    match strptime f cs with
    | some dt => some dt
    | none => tryFormats fs cs

/-- Model of `csv_utils._parse_date`: `None`, the empty string and
whitespace-only strings give `None`; otherwise the stripped string is
tried against the six formats in order.  Total: never raises. -/
def _parse_date (value : Option String) : Option PyDateTime :=
  match value with
  | none => none
  | some v =>
    if pyStrip v = "" then none
    else tryFormats DATE_FORMATS (pyStrip v).toList

/-! ### Schema mapper (`csv_utils.apply_schema_to_transaction`)

`Transaction.raw_data` is the JSON dict of one CSV line: column name to
string value, where a value may be null (`csv.DictReader` fills missing
trailing cells with `None`).  The model keeps the fields of the Django
`Transaction` model that the claims mention; `save()` is persistence and
is outside the pure model (the function returns the updated record). -/

structure Transaction where
  transaction_date : Option PyDateTime
  posted_date : Option PyDateTime
  description : Option String
  description_2 : Option String
  category : Option String
  subcategory : Option String
  amount : Option Rat
  raw_data : List (String × Option String)
  location_classification : Option Int
  location_subclassification : Option Int
  time_classification : Option Int
  person_classification : Option Int
  account : Int
deriving DecidableEq, Repr

/-- The `"schema"` sub-object of the mapping blob: field name to source
column name (or absent). -/
structure SchemaMapping where
  transaction_date : Option String
  posted_date : Option String
  description : Option String
  description_2 : Option String
  category : Option String
  amount : Option String
deriving DecidableEq, Repr

/-- The per-account `file_upload_schema` blob. -/
structure Schema where
  schema : SchemaMapping
  amount_column_format : Option String
  debit_column : Option String
  credit_column : Option String
deriving DecidableEq, Repr

/-- First binding of a key in a raw row (dict lookup). -/
def rawLookup (raw : List (String × Option String)) (c : String) : Option (Option String) :=
  match raw.find? (fun kv => kv.1 = c) with
  | some kv => some kv.2
  | none => none

/-- The `get_raw` closure: `if col and col in raw: return raw[col]` —
an absent mapping, an empty (falsy) column name, a missing column and a
null cell all give `None`. -/
def get_raw (raw : List (String × Option String)) (col : Option String) : Option String :=
  match col with
  | some c =>
    if c = "" then none
    else
      match rawLookup raw c with
      | some v => v
      | none => none
  | none => none

/-- The `str(x).strip() if x else None` pattern for text fields: `None`
and the empty string give `None`, anything else is stripped (note that a
whitespace-only cell yields the empty string, not `None`). -/
def stripIfTruthy (v : Option String) : Option String :=
  match v with
  | some s => if s = "" then none else some (pyStrip s)
  | none => none

/-- The split-column pattern
`_parse_amount(raw.get(col)) if col and col in raw else None`. -/
def splitColAmount (raw : List (String × Option String)) (col : Option String) : Option Rat :=
  match col with
  | some c =>
    if c = "" then none
    else
      match rawLookup raw c with
      | some v => _parse_amount v
      | none => none
  | none => none

/-- Model of `csv_utils.apply_schema_to_transaction` (without the final
`transaction.save()`, which persists the returned record). -/
def apply_schema_to_transaction (t : Transaction) (schema : Schema) : Transaction :=
  let raw := t.raw_data
  let mapping := schema.schema
  let amount_format := schema.amount_column_format
  let amount :=
    if amount_format = some "debit_is_negative" ∨ amount_format = some "debit_is_positive" then
      match _parse_amount (get_raw raw mapping.amount) with
      | some raw_amount =>
        if amount_format = some "debit_is_negative" then some raw_amount
        else some (-raw_amount)
      | none => none
    else
      let debit_val := splitColAmount raw schema.debit_column
      let credit_val := splitColAmount raw schema.credit_column
      match debit_val, credit_val with
      | some d, some c => some (c - d)
      | some d, none => some (-|d|)
      | none, some c => some |c|
      | none, none => none
  { t with
    transaction_date := _parse_date (get_raw raw mapping.transaction_date)
    posted_date := _parse_date (get_raw raw mapping.posted_date)
    description := stripIfTruthy (get_raw raw mapping.description)
    description_2 := stripIfTruthy (get_raw raw mapping.description_2)
    category := stripIfTruthy (get_raw raw mapping.category)
    amount := amount }

/-! ### Re-process pass (`FileUploadViewSet.process`)

The pass applies the schema to every transaction of the batch inside a
`try/except Exception` that collects the message of each failure.  The
possibility of a per-transaction exception comes from the environment
(`transaction.save()` hitting the database), so the pass is parametrised
by the effectful application, modelled as `Except String`. -/

structure FileUploadRec (α : Type) where
  status : String
  errors : Option String
  transactions : List α
deriving Repr

/-- The collection loop: `for txn in ...: try: apply ... except: append`. -/
def collectErrors {α : Type} (applyFn : α → Except String α) (txns : List α) : List String :=
  txns.foldl
    (fun acc txn =>
      match applyFn txn with
      | .ok _ => acc
      | .error exc => acc ++ [exc])
    []

/-- Model of the `process` action after the schema-present check: run the
loop, then mark the batch failed with the joined error log when any
transaction raised, else completed with the log cleared. -/
def processPass {α : Type} (applyFn : α → Except String α) (fu : FileUploadRec α) :
    FileUploadRec α :=
  let errors := collectErrors applyFn fu.transactions
  if errors ≠ [] then
    { fu with status := "failed", errors := some (String.intercalate "\n" errors) }
  else
    { fu with status := "completed", errors := none }

/-! ### Ordered dictionaries

Python dicts preserve insertion order; `d[k] = f(d.get(k))` updates the
existing binding in place or appends a new one.  Association lists with
`updOD` model exactly that. -/

/-- Dict lookup: first binding of the key. -/
def odGet {K : Type} {V : Type} [DecidableEq K] (l : List (K × V)) (k : K) : Option V :=
  match l with
  | [] => none
  | kv :: rest => if kv.1 = k then some kv.2 else odGet rest k

/-- Dict update: replace the value at the key in place, or append a new
binding at the end. -/
def updOD {K : Type} {V : Type} [DecidableEq K] (l : List (K × V)) (k : K)
    (f : Option V → V) : List (K × V) :=
  match l with
  | [] => [(k, f none)]
  | kv :: rest => if kv.1 = k then (k, f (some kv.2)) :: rest else kv :: updOD rest k f

/-! ### Classification backfill (`seed_location_classifications`) -/

/-- Account types where a positive amount means income
(`STANDARD_SIGN_TYPES` in the command). -/
def STANDARD_SIGN_TYPES : List String :=
  ["checking", "savings", "credit_card", "investment", "loan"]

def TRANSFER_CATEGORY : String := "N/A"

/-- Model of `infer_type_from_account_and_amount`. -/
def infer_type_from_account_and_amount (account_type : String) (amount : Option Rat) :
    String :=
  if account_type ∈ STANDARD_SIGN_TYPES then
    match amount with
    | some a => if 0 < a then "income" else "expense"
    | none => "expense"
  else "expense"

/-- The transaction fields the scan loop reads
(`.only('category', 'subcategory', 'amount', 'account__type')`). -/
structure SeedTxn where
  category : Option String
  subcategory : Option String
  amount : Option Rat
  account_type : String
deriving DecidableEq, Repr

/-- The vote one transaction casts in the scan loop of `Command.handle`:
none when the stripped category is blank; for the reserved label the type
is `transfer`; otherwise the sign heuristic decides. -/
def voteOf (tx : SeedTxn) : Option (String × String) :=
  let cat := pyStrip (tx.category.getD "")
  if cat = "" then none
  else if cat = TRANSFER_CATEGORY then some (cat, "transfer")
  else some (cat, infer_type_from_account_and_amount tx.account_type tx.amount)

/-- Increment one type counter inside a category's vote dict
(`type_votes[cat][t] += 1` on a `defaultdict(int)`). -/
def bumpVote (votes : List (String × Nat)) (t : String) : List (String × Nat) :=
  updOD votes t (fun o => o.getD 0 + 1)

/-- The scan loop: fold the per-transaction votes into the nested dict. -/
def buildTypeVotes (txs : List SeedTxn) : List (String × List (String × Nat)) :=
  txs.foldl
    (fun tv tx =>
      match voteOf tx with
      | some ct => updOD tv ct.1 (fun o => bumpVote (o.getD []) ct.2)
      | none => tv)
    []

/-- Total votes recorded for a (category, type) pair. -/
def votesFor (tv : List (String × List (String × Nat))) (c t : String) : Nat :=
  (odGet ((odGet tv c).getD []) t).getD 0

/-- Python `max(votes, key=lambda t: votes[t])` over the dict in insertion
order: the first key of maximal count wins (`<` comparison, so a later
equal count does not replace the current best). -/
def pyMaxVotes (t0 : String) (n0 : Nat) (rest : List (String × Nat)) : String :=
  (rest.foldl (fun best x => if best.2 < x.2 then x else best) (t0, n0)).1

/-- Resolution of one category (`len(votes)==1` short-circuit, else
plurality). -/
def resolveOne (votes : List (String × Nat)) : String :=
  match votes with
  | [] => ""
  | [tn] => tn.1
  | tn :: rest => pyMaxVotes tn.1 tn.2 rest

/-- The resolution loop: winning type per category, in dict order. -/
def resolveAll (tv : List (String × List (String × Nat))) : List (String × String) :=
  tv.map (fun cv => (cv.1, resolveOne cv.2))

/-- The conflict list: categories whose votes span more than one type, in
dict order. -/
def conflictsOf (tv : List (String × List (String × Nat))) : List String :=
  tv.filterMap (fun cv => if 1 < cv.2.length then some cv.1 else none)

/-! ### Summary report (`views._build_summary_sections`)

One aggregated row per (classification, subclassification) group, as
produced by the `values(...).annotate(total=Sum('amount'))` query.  The
`cat_meta` / `sub_meta` dicts of the source are redundant with the keys:
`cat_meta[cat_key]` always holds `id = cat_key[0]` and `name = cat_key[1]`
(every write stores exactly those), and likewise for `sub_meta`, so the
output ids and names are taken from the keys directly. -/

structure SummaryRow where
  cls_id : Option Int
  cls_name : Option String
  cls_type : Option String
  sub_id : Option Int
  sub_name : Option String
  total : Option Rat
deriving DecidableEq, Repr

/-- Category key `(row['cls_id'], row['cls_name'] or 'Unclassified')`. -/
abbrev CatKey := Option Int × String

/-- Subcategory key `(row['sub_id'], row['sub_name'] or 'Uncategorized')`. -/
abbrev SubKey := Option Int × String

/-- One row folded into the `type -> cat_key -> sub_key -> total` tree. -/
def insRow (tree : List (String × List (CatKey × List (SubKey × Rat))))
    (row : SummaryRow) : List (String × List (CatKey × List (SubKey × Rat))) :=
  let cls_type := pyOrStr row.cls_type "expense"
  let cat_key : CatKey := (row.cls_id, pyOrStr row.cls_name "Unclassified")
  let sub_key : SubKey := (row.sub_id, pyOrStr row.sub_name "Uncategorized")
  let total := pyOrRat row.total
  updOD tree cls_type (fun cats =>
    updOD (cats.getD []) cat_key (fun subs =>
      updOD (subs.getD []) sub_key (fun t => t.getD 0 + total)))

/-- The Python sort key `(x[0][0] is None, x[0][0])` as a boolean order on
identities: `False` sorts before `True`, so integer ids come first in
ascending order, and a null id sorts after every integer id. -/
def keyLE (a b : Option Int) : Bool :=
  match a, b with
  | none, none => true
  | none, some _ => false
  | some _, none => true
  | some i, some j => i ≤ j

/-- Stable insertion into a sorted list: the new element goes before the
first element it compares less-or-equal to. -/
def insSorted {α : Type} (le : α → α → Bool) (x : α) : List α → List α
  | [] => [x]
  | y :: ys => if le x y then x :: y :: ys else y :: insSorted le x ys

/-- Python `sorted`: a stable ascending sort. -/
def pySorted {α : Type} (le : α → α → Bool) (l : List α) : List α :=
  l.foldr (insSorted le) []

structure SubOut where
  id : Option Int
  name : String
  total : Rat
deriving DecidableEq, Repr

structure CatOut where
  id : Option Int
  name : String
  subcategories : List SubOut
  total : Rat
deriving DecidableEq, Repr

structure SectionOut where
  type : String
  label : String
  categories : List CatOut
  total : Rat
deriving DecidableEq, Repr

/-- The inner loop of `_build_summary_sections`: sorted subcategories are
appended while `cat_total` accumulates. -/
def buildCat (ck : CatKey) (subs : List (SubKey × Rat)) : CatOut :=
  let sortedSubs := pySorted (fun a b => keyLE a.1.1 b.1.1) subs
  let acc := sortedSubs.foldl
    (fun acc kv => (acc.1 ++ [SubOut.mk kv.1.1 kv.1.2 kv.2], acc.2 + kv.2))
    (([] : List SubOut), (0 : Rat))
  ⟨ck.1, ck.2, acc.1, acc.2⟩

/-- The outer loop: sorted categories are appended while `section_total`
accumulates. -/
def buildSection (cls_type label : String) (cats : List (CatKey × List (SubKey × Rat))) :
    SectionOut :=
  let sortedCats := pySorted (fun a b => keyLE a.1.1 b.1.1) cats
  let acc := sortedCats.foldl
    (fun acc kv => (acc.1 ++ [buildCat kv.1 kv.2], acc.2 + (buildCat kv.1 kv.2).total))
    (([] : List CatOut), (0 : Rat))
  ⟨cls_type, label, acc.1, acc.2⟩

/-- Model of `views._build_summary_sections`: returns the two sections and
`(total_revenues, total_expenses)`. -/
def _build_summary_sections (rows : List SummaryRow) :
    List SectionOut × Rat × Rat :=
  let tree := rows.foldl insRow []
  let secIncome := buildSection "income" "Revenues" ((odGet tree "income").getD [])
  let secExpense := buildSection "expense" "Expenses" ((odGet tree "expense").getD [])
  ([secIncome, secExpense], secIncome.total, secExpense.total)

/-! ### Monthly report (`CashFlowStatementViewSet.monthly`)

A `Fin 12` index models the 1-12 month keys of the `zero_months()` dicts
(index `m` is calendar month `m+1`); `TruncMonth` guarantees the month of
every aggregated row is in range, so the dicts of the source always have
exactly the keys 1..12 and pointwise functions are a faithful model.
Iterating `month_totals.items()` and adding each present month's value is
modelled by pointwise addition of the month vector (absent months hold
zero). -/

abbrev Months := Fin 12 → Rat

def zeroMonths : Months := fun _ => 0

def addMonths (f g : Months) : Months := fun m => f m + g m

structure MonthlyRow where
  month : Fin 12
  cls_id : Option Int
  cls_name : Option String
  cls_type : Option String
  sub_id : Option Int
  sub_name : Option String
  total : Option Rat
deriving DecidableEq, Repr

/-- Pivot key `(cls_type, cat_key, sub_key)`. -/
abbrev PivotKey := String × CatKey × SubKey

/-- One raw row folded into the pivot
(`pivot[pivot_key][month_idx] += total`). -/
def insPivotRow (pivot : List (PivotKey × Months)) (row : MonthlyRow) :
    List (PivotKey × Months) :=
  let cls_type := pyOrStr row.cls_type "expense"
  let cat_key : CatKey := (row.cls_id, pyOrStr row.cls_name "Unclassified")
  let sub_key : SubKey := (row.sub_id, pyOrStr row.sub_name "Uncategorized")
  let total := pyOrRat row.total
  updOD pivot (cls_type, cat_key, sub_key) (fun mo =>
    let f := mo.getD zeroMonths
    fun m => if m = row.month then f m + total else f m)

/-- Value of one `cats_map` entry: subcategory month dicts plus the
category's own month dict. -/
structure MCatData where
  subs : List (SubKey × Months)
  months : Months

/-- The `cats_map` collection loop for one section: pivot entries of the
section's type contribute their month totals to the category and to the
subcategory (`setdefault` then `+=`). -/
def collectCats (cls_type : String) (pivot : List (PivotKey × Months)) :
    List (CatKey × MCatData) :=
  pivot.foldl
    (fun cats_map e =>
      if e.1.1 = cls_type then
        updOD cats_map e.1.2.1 (fun o =>
          let cd := o.getD ⟨[], zeroMonths⟩
          ⟨updOD cd.subs e.1.2.2 (fun so => addMonths (so.getD zeroMonths) e.2),
           addMonths cd.months e.2⟩)
      else cats_map)
    []

/-- `ytd(month_dict)`: the sum of the twelve month values. -/
def ytdOf (f : Months) : Rat := ∑ m : Fin 12, f m

structure MSubOut where
  id : Option Int
  name : String
  months : Months
  ytd : Rat

structure MCatOut where
  id : Option Int
  name : String
  subcategories : List MSubOut
  months : Months
  ytd : Rat

structure MSectionOut where
  type : String
  label : String
  categories : List MCatOut
  months : Months
  ytd : Rat

structure MTotals where
  months : Months
  ytd : Rat

structure MonthlyOut where
  sections : List MSectionOut
  total_revenues : MTotals
  total_expenses : MTotals
  net_income : MTotals

/-- Build one monthly category from its collected data (sorted
subcategory loop). -/
def buildMCat (ck : CatKey) (cd : MCatData) : MCatOut :=
  let sortedSubs := pySorted (fun a b => keyLE a.1.1 b.1.1) cd.subs
  let subList := sortedSubs.map (fun kv => MSubOut.mk kv.1.1 kv.1.2 kv.2 (ytdOf kv.2))
  ⟨ck.1, ck.2, subList, cd.months, ytdOf cd.months⟩

/-- Build one monthly section (sorted category loop with
`section_months[m] += v`). -/
def buildMSection (cls_type label : String) (pivot : List (PivotKey × Months)) :
    MSectionOut :=
  let cats_map := collectCats cls_type pivot
  let sortedCats := pySorted (fun a b => keyLE a.1.1 b.1.1) cats_map
  let acc := sortedCats.foldl
    (fun acc kv => (acc.1 ++ [buildMCat kv.1 kv.2], addMonths acc.2 kv.2.months))
    (([] : List MCatOut), zeroMonths)
  ⟨cls_type, label, acc.1, acc.2, ytdOf acc.2⟩

/-- Model of the aggregation core of `CashFlowStatementViewSet.monthly`
(after the year filter and `TruncMonth` query): pivot, two sections,
grand totals and net income. -/
def monthlyReport (rows : List MonthlyRow) : MonthlyOut :=
  let pivot := rows.foldl insPivotRow []
  let secIncome := buildMSection "income" "Revenues" pivot
  let secExpense := buildMSection "expense" "Expenses" pivot
  let total_rev_months := addMonths zeroMonths secIncome.months
  let total_exp_months := addMonths zeroMonths secExpense.months
  let net_months := fun m => total_rev_months m + total_exp_months m
  ⟨[secIncome, secExpense],
   ⟨total_rev_months, ytdOf total_rev_months⟩,
   ⟨total_exp_months, ytdOf total_exp_months⟩,
   ⟨net_months, ytdOf net_months⟩⟩

/-! ### General lemmas about the loop and dict models -/

theorem foldl_append_snd_rat {α γ : Type} (g : α → γ) (h : α → Rat) :
    ∀ (l : List α) (xs : List γ) (t : Rat),
      l.foldl (fun acc x => (acc.1 ++ [g x], acc.2 + h x)) (xs, t) =
        (xs ++ l.map g, t + (l.map h).sum) := by
  intro l
  induction l with
  | nil => intro xs t; simp
  | cons a l ih =>
    intro xs t
    simp only [List.foldl_cons, ih, List.map_cons, List.sum_cons, List.append_assoc,
      List.singleton_append]
    exact Prod.ext rfl (by ring)

theorem foldl_append_snd_months {α γ : Type} (g : α → γ) (h : α → Months) :
    ∀ (l : List α) (xs : List γ) (t : Months),
      l.foldl (fun acc x => (acc.1 ++ [g x], addMonths acc.2 (h x))) (xs, t) =
        (xs ++ l.map g, fun m => t m + (l.map (fun x => h x m)).sum) := by
  intro l
  induction l with
  | nil =>
    intro xs t
    simp only [List.foldl_nil, List.map_nil, List.append_nil, List.sum_nil]
    exact Prod.ext rfl (by funext m; simp)
  | cons a l ih =>
    intro xs t
    simp only [List.foldl_cons, ih, List.map_cons, List.sum_cons, List.append_assoc,
      List.singleton_append]
    refine Prod.ext rfl ?_
    funext m
    simp [addMonths]
    ring

theorem insSorted_perm {α : Type} (le : α → α → Bool) (x : α) :
    ∀ l : List α, List.Perm (insSorted le x l) (x :: l) := by
  intro l
  induction l with
  | nil => simp [insSorted]
  | cons y ys ih =>
    simp only [insSorted]
    by_cases h : le x y
    · simp [h]
    · simp only [h, Bool.false_eq_true, if_false]
      exact (ih.cons y).trans (List.Perm.swap x y ys)

theorem pySorted_perm {α : Type} (le : α → α → Bool) :
    ∀ l : List α, List.Perm (pySorted le l) l := by
  intro l
  induction l with
  | nil => simp [pySorted]
  | cons a l ih =>
    simp only [pySorted, List.foldr_cons]
    exact (insSorted_perm le a _).trans (ih.cons a)

theorem pairwise_insSorted {α : Type} (le : α → α → Bool)
    (htot : ∀ a b, le a b = true ∨ le b a = true)
    (htrans : ∀ a b c, le a b = true → le b c = true → le a c = true) (x : α) :
    ∀ l : List α, List.Pairwise (fun a b => le a b = true) l →
      List.Pairwise (fun a b => le a b = true) (insSorted le x l) := by
  intro l
  induction l with
  | nil => intro _; simp [insSorted]
  | cons y ys ih =>
    intro hp
    rcases List.pairwise_cons.mp hp with ⟨hy, hys⟩
    simp only [insSorted]
    by_cases h : le x y
    · simp only [h, if_pos]
      refine List.pairwise_cons.mpr ⟨?_, hp⟩
      intro b hb
      rcases List.mem_cons.mp hb with rfl | hb
      · exact h
      · exact htrans x y b h (hy b hb)
    · simp only [h, Bool.false_eq_true, if_neg, not_false_eq_true]
      refine List.pairwise_cons.mpr ⟨?_, ih hys⟩
      intro b hb
      have hb' := (insSorted_perm le x ys).mem_iff.mp hb
      rcases List.mem_cons.mp hb' with rfl | hb'
      · rcases htot b y with hby | hyb
        · exact absurd hby h
        · exact hyb
      · exact hy b hb'

theorem pairwise_pySorted {α : Type} (le : α → α → Bool)
    (htot : ∀ a b, le a b = true ∨ le b a = true)
    (htrans : ∀ a b c, le a b = true → le b c = true → le a c = true) :
    ∀ l : List α, List.Pairwise (fun a b => le a b = true) (pySorted le l) := by
  intro l
  induction l with
  | nil => simp [pySorted]
  | cons a l ih =>
    simp only [pySorted, List.foldr_cons]
    exact pairwise_insSorted le htot htrans a _ ih

theorem keyLE_total (a b : Option Int) : keyLE a b = true ∨ keyLE b a = true := by
  cases a <;> cases b <;> simp [keyLE] <;> omega

theorem keyLE_trans (a b c : Option Int) :
    keyLE a b = true → keyLE b c = true → keyLE a c = true := by
  cases a <;> cases b <;> cases c <;> simp [keyLE] <;> omega

theorem odGet_updOD_self {K V : Type} [DecidableEq K] (k : K) (f : Option V → V) :
    ∀ l : List (K × V), odGet (updOD l k f) k = some (f (odGet l k)) := by
  intro l
  induction l with
  | nil => simp [updOD, odGet]
  | cons kv rest ih =>
    simp only [updOD, odGet]
    by_cases h : kv.1 = k
    · simp [h, odGet]
    · simp [h, odGet, ih]

theorem odGet_updOD_ne {K V : Type} [DecidableEq K] (k k' : K) (hne : k' ≠ k)
    (f : Option V → V) : ∀ l : List (K × V), odGet (updOD l k f) k' = odGet l k' := by
  intro l
  have hkk' : ¬k = k' := fun h => hne h.symm
  induction l with
  | nil => simp [updOD, odGet, hkk']
  | cons kv rest ih =>
    simp only [updOD]
    by_cases h : kv.1 = k
    · simp [odGet, h, hkk']
    · simp [odGet, h, ih]

theorem odGet_mem {K V : Type} [DecidableEq K] (k : K) (v : V) :
    ∀ l : List (K × V), odGet l k = some v → (k, v) ∈ l := by
  intro l
  induction l with
  | nil => simp [odGet]
  | cons kv rest ih =>
    simp only [odGet]
    by_cases h : kv.1 = k
    · intro hv
      rw [if_pos h] at hv
      obtain ⟨k1, v1⟩ := kv
      obtain rfl : k1 = k := h
      obtain rfl : v1 = v := Option.some.inj hv
      exact List.mem_cons_self _ _
    · intro hv
      rw [if_neg h] at hv
      exact List.mem_cons_of_mem _ (ih hv)

theorem mem_updOD {K V : Type} [DecidableEq K] (k : K) (f : Option V → V) :
    ∀ (l : List (K × V)) (p : K × V), p ∈ updOD l k f →
      p ∈ l ∨ p = (k, f (odGet l k)) := by
  intro l
  induction l with
  | nil =>
    intro p hp
    simp only [updOD, List.mem_singleton] at hp
    exact Or.inr (by simp [hp, odGet])
  | cons kv rest ih =>
    intro p hp
    simp only [updOD] at hp
    by_cases h : kv.1 = k
    · simp only [h, if_pos] at hp
      rcases List.mem_cons.mp hp with rfl | hp
      · exact Or.inr (by simp [odGet, h])
      · exact Or.inl (List.mem_cons_of_mem _ hp)
    · simp only [h, if_neg, not_false_eq_true] at hp
      rcases List.mem_cons.mp hp with rfl | hp
      · exact Or.inl (List.mem_cons_self _ _)
      · rcases ih p hp with hin | heq
        · exact Or.inl (List.mem_cons_of_mem _ hin)
        · exact Or.inr (by simpa [odGet, h] using heq)

/-! ### Claim theorems -/

/-- C1: the Schema Mapper's canonical sign convention.  Single-column mode
`debit_is_negative` assigns the parsed value unchanged and
`debit_is_positive` assigns its negation (null when the parse fails, since
`Option.map` preserves `none`); split debit/credit mode nets
`credit - debit` when both parse, forces `-|debit|` when only the debit
parses, forces `|credit|` when only the credit parses, and null when
neither parses. -/
theorem c1_amount_sign_convention (t : Transaction) (s : Schema) :
    ((s.amount_column_format = some "debit_is_negative" →
        (apply_schema_to_transaction t s).amount =
          _parse_amount (get_raw t.raw_data s.schema.amount)) ∧
      (s.amount_column_format = some "debit_is_positive" →
        (apply_schema_to_transaction t s).amount =
          (_parse_amount (get_raw t.raw_data s.schema.amount)).map (fun q => -q))) ∧
    (s.amount_column_format ≠ some "debit_is_negative" →
      s.amount_column_format ≠ some "debit_is_positive" →
      (∀ d c, splitColAmount t.raw_data s.debit_column = some d →
        splitColAmount t.raw_data s.credit_column = some c →
        (apply_schema_to_transaction t s).amount = some (c - d)) ∧
      (∀ d, splitColAmount t.raw_data s.debit_column = some d →
        splitColAmount t.raw_data s.credit_column = none →
        (apply_schema_to_transaction t s).amount = some (-|d|)) ∧
      (∀ c, splitColAmount t.raw_data s.debit_column = none →
        splitColAmount t.raw_data s.credit_column = some c →
        (apply_schema_to_transaction t s).amount = some |c|) ∧
      (splitColAmount t.raw_data s.debit_column = none →
        splitColAmount t.raw_data s.credit_column = none →
        (apply_schema_to_transaction t s).amount = none)) := by
  refine ⟨⟨?_, ?_⟩, ?_⟩
  · intro h
    cases hp : _parse_amount (get_raw t.raw_data s.schema.amount) <;>
      simp [apply_schema_to_transaction, h, hp]
  · intro h
    cases hp : _parse_amount (get_raw t.raw_data s.schema.amount) <;>
      simp [apply_schema_to_transaction, h, hp]
  · intro h1 h2
    have hcond : ¬(s.amount_column_format = some "debit_is_negative" ∨
        s.amount_column_format = some "debit_is_positive") := by
      rintro (h | h)
      · exact h1 h
      · exact h2 h
    refine ⟨?_, ?_, ?_, ?_⟩
    · intro d c hd hc
      simp [apply_schema_to_transaction, hcond, hd, hc]
    · intro d hd hc
      simp [apply_schema_to_transaction, hcond, hd, hc]
    · intro c hd hc
      simp [apply_schema_to_transaction, hcond, hd, hc]
    · intro hd hc
      simp [apply_schema_to_transaction, hcond, hd, hc]

/-- Example transaction holding one raw row, all other fields empty. -/
def exTxn (raw : List (String × Option String)) : Transaction :=
  ⟨none, none, none, none, none, none, none, raw, none, none, none, none, 1⟩

/-- Example schema with split debit/credit columns `d` and `c`. -/
def exSplitSchema : Schema :=
  ⟨⟨none, none, none, none, none, none⟩, none, some "d", some "c"⟩

/-- Example schema mapping the single amount column `a`. -/
def exSingleSchema (fmt : String) : Schema :=
  ⟨⟨none, none, none, none, none, some "a"⟩, some fmt, none, none⟩

/-- C1 witness: the five concrete sign-convention examples of the spec. -/
theorem c1_amount_sign_convention_witness :
    (apply_schema_to_transaction (exTxn [("d", some "100"), ("c", some "0")])
        exSplitSchema).amount = some (-100) ∧
      (apply_schema_to_transaction (exTxn [("d", some "0"), ("c", some "100")])
        exSplitSchema).amount = some 100 ∧
      (apply_schema_to_transaction (exTxn [("d", some "100"), ("c", some "30")])
        exSplitSchema).amount = some (-70) ∧
      (apply_schema_to_transaction (exTxn [("a", some "50")])
        (exSingleSchema "debit_is_positive")).amount = some (-50) ∧
      (apply_schema_to_transaction (exTxn [("a", some "-50")])
        (exSingleSchema "debit_is_negative")).amount = some (-50) := by
  refine ⟨?_, ?_, ?_, ?_, ?_⟩
  · rw [((c1_amount_sign_convention (exTxn [("d", some "100"), ("c", some "0")])
      exSplitSchema).2 (by simp [exSplitSchema]) (by simp [exSplitSchema])).1 100 0 rfl rfl]
    norm_num
  · rw [((c1_amount_sign_convention (exTxn [("d", some "0"), ("c", some "100")])
      exSplitSchema).2 (by simp [exSplitSchema]) (by simp [exSplitSchema])).1 0 100 rfl rfl]
    norm_num
  · rw [((c1_amount_sign_convention (exTxn [("d", some "100"), ("c", some "30")])
      exSplitSchema).2 (by simp [exSplitSchema]) (by simp [exSplitSchema])).1 100 30 rfl rfl]
    norm_num
  · rw [(c1_amount_sign_convention (exTxn [("a", some "50")])
      (exSingleSchema "debit_is_positive")).1.2 rfl]
    exact show Option.map (fun q : Rat => -q) (some (50 : Rat)) = some (-50) by simp
  · rw [(c1_amount_sign_convention (exTxn [("a", some "-50")])
      (exSingleSchema "debit_is_negative")).1.1 rfl]
    rfl

/-- C9: the Schema Mapper is idempotent.  A second application reads the
same (unchanged) raw row through the same mapping, so all six normalized
fields come out identical. -/
theorem c9_schema_mapper_idempotent (t : Transaction) (s : Schema) :
    (apply_schema_to_transaction (apply_schema_to_transaction t s) s).transaction_date =
        (apply_schema_to_transaction t s).transaction_date ∧
      (apply_schema_to_transaction (apply_schema_to_transaction t s) s).posted_date =
        (apply_schema_to_transaction t s).posted_date ∧
      (apply_schema_to_transaction (apply_schema_to_transaction t s) s).description =
        (apply_schema_to_transaction t s).description ∧
      (apply_schema_to_transaction (apply_schema_to_transaction t s) s).description_2 =
        (apply_schema_to_transaction t s).description_2 ∧
      (apply_schema_to_transaction (apply_schema_to_transaction t s) s).category =
        (apply_schema_to_transaction t s).category ∧
      (apply_schema_to_transaction (apply_schema_to_transaction t s) s).amount =
        (apply_schema_to_transaction t s).amount :=
  ⟨rfl, rfl, rfl, rfl, rfl, rfl⟩

/-- C10: the Schema Mapper writes only the six mapped fields.  Any number
of re-mapping passes leaves the subcategory, the four classification
references, the raw row data and the owning account untouched. -/
theorem c10_schema_mapper_frame (t : Transaction) (s : Schema) (n : Nat) :
    ((fun u => apply_schema_to_transaction u s)^[n] t).subcategory = t.subcategory ∧
      ((fun u => apply_schema_to_transaction u s)^[n] t).location_classification =
        t.location_classification ∧
      ((fun u => apply_schema_to_transaction u s)^[n] t).location_subclassification =
        t.location_subclassification ∧
      ((fun u => apply_schema_to_transaction u s)^[n] t).time_classification =
        t.time_classification ∧
      ((fun u => apply_schema_to_transaction u s)^[n] t).person_classification =
        t.person_classification ∧
      ((fun u => apply_schema_to_transaction u s)^[n] t).raw_data = t.raw_data ∧
      ((fun u => apply_schema_to_transaction u s)^[n] t).account = t.account := by
  induction n with
  | zero => exact ⟨rfl, rfl, rfl, rfl, rfl, rfl, rfl⟩
  | succ n ih =>
    simp only [Function.iterate_succ_apply']
    exact ih

/-! ### C8: re-process pass -/

/-- Error message extracted from one application attempt. -/
def errOf {α : Type} (applyFn : α → Except String α) (t : α) : Option String :=
  match applyFn t with
  | .error e => some e
  | .ok _ => none

theorem collectErrors_eq_filterMap {α : Type} (applyFn : α → Except String α) :
    ∀ (txns : List α) (acc : List String),
      txns.foldl
        (fun acc txn =>
          match applyFn txn with
          | .ok _ => acc
          | .error exc => acc ++ [exc]) acc =
        acc ++ txns.filterMap (errOf applyFn) := by
  intro txns
  induction txns with
  | nil => intro acc; simp
  | cons t ts ih =>
    intro acc
    simp only [List.foldl_cons, List.filterMap_cons]
    cases h : applyFn t <;> simp [errOf, h, ih]

/-- C8: a per-transaction failure never aborts the re-process pass; the
final status is `failed` exactly when at least one transaction raised, in
which case the error log joins the collected messages in order, and
otherwise the batch is `completed` with the error log cleared. -/
theorem c8_process_pass_collects_errors {α : Type} (applyFn : α → Except String α)
    (fu : FileUploadRec α) :
    ((processPass applyFn fu).status = "failed" ∨
        (processPass applyFn fu).status = "completed") ∧
      ((processPass applyFn fu).status = "failed" ↔
        ∃ t ∈ fu.transactions, ∃ e, applyFn t = .error e) ∧
      ((processPass applyFn fu).status = "failed" →
        (processPass applyFn fu).errors =
          some (String.intercalate "\n" (fu.transactions.filterMap (errOf applyFn)))) ∧
      ((processPass applyFn fu).status = "completed" →
        (processPass applyFn fu).errors = none) ∧
      (processPass applyFn fu).transactions = fu.transactions := by
  have hco : collectErrors applyFn fu.transactions =
      fu.transactions.filterMap (errOf applyFn) := by
    simpa using collectErrors_eq_filterMap applyFn fu.transactions []
  have hex : fu.transactions.filterMap (errOf applyFn) ≠ [] ↔
      ∃ t ∈ fu.transactions, ∃ e, applyFn t = .error e := by
    rw [ne_eq, List.filterMap_eq_nil]
    constructor
    · intro h
      push_neg at h
      obtain ⟨t, ht, he⟩ := h
      refine ⟨t, ht, ?_⟩
      cases happ : applyFn t with
      | error e => exact ⟨e, rfl⟩
      | ok v => exact absurd (by simp [errOf, happ]) he
    · rintro ⟨t, ht, e, he⟩ hall
      have := hall t ht
      simp [errOf, he] at this
  by_cases h : collectErrors applyFn fu.transactions = []
  · have hnone : ¬∃ t ∈ fu.transactions, ∃ e, applyFn t = .error e := by
      rw [← hex, ← hco]
      simpa using h
    refine ⟨Or.inr ?_, ?_, ?_, ?_, ?_⟩ <;>
      simp_all [processPass]
  · have hsome : ∃ t ∈ fu.transactions, ∃ e, applyFn t = .error e := by
      rw [← hex, ← hco]
      exact h
    refine ⟨Or.inl ?_, ?_, ?_, ?_, ?_⟩ <;>
      simp_all [processPass]

/-- C8 witness: a batch where transactions 1 and 3 raise (message `odd`)
ends `failed` with both messages joined; an all-clean batch ends
`completed` with the log cleared. -/
theorem c8_process_pass_collects_errors_witness :
    (processPass (fun n : Nat => if n % 2 = 0 then .ok n else .error "odd")
        ⟨"processing", some "old", [1, 2, 3]⟩).status = "failed" ∧
      (processPass (fun n : Nat => if n % 2 = 0 then .ok n else .error "odd")
        ⟨"processing", some "old", [1, 2, 3]⟩).errors = some "odd\nodd" ∧
      (processPass (fun n : Nat => if n % 2 = 0 then .ok n else .error "odd")
        ⟨"processing", some "old", [2, 4]⟩).status = "completed" ∧
      (processPass (fun n : Nat => if n % 2 = 0 then .ok n else .error "odd")
        ⟨"processing", some "old", [2, 4]⟩).errors = none := by
  refine ⟨?_, ?_, ?_, ?_⟩
  · exact (c8_process_pass_collects_errors _ _).2.1.mpr ⟨1, by decide, "odd", by norm_num⟩
  · rw [(c8_process_pass_collects_errors _ _).2.2.1
      ((c8_process_pass_collects_errors _ _).2.1.mpr ⟨1, by decide, "odd", by norm_num⟩)]
    decide
  · rcases (c8_process_pass_collects_errors
      (fun n : Nat => if n % 2 = 0 then .ok n else .error "odd")
      ⟨"processing", some "old", [2, 4]⟩).1 with h | h
    · exfalso
      obtain ⟨t, ht, e, he⟩ := (c8_process_pass_collects_errors _ _).2.1.mp h
      fin_cases ht <;> simp_all
    · exact h
  · refine (c8_process_pass_collects_errors _ _).2.2.2.1 ?_
    rcases (c8_process_pass_collects_errors
      (fun n : Nat => if n % 2 = 0 then .ok n else .error "odd")
      ⟨"processing", some "old", [2, 4]⟩).1 with h | h
    · exfalso
      obtain ⟨t, ht, e, he⟩ := (c8_process_pass_collects_errors _ _).2.1.mp h
      fin_cases ht <;> simp_all
    · exact h

/-! ### C7: classification backfill voting -/

theorem odGet_bumpVote (vs : List (String × Nat)) (t' t : String) :
    odGet (bumpVote vs t') t =
      if t' = t then some ((odGet vs t).getD 0 + 1) else odGet vs t := by
  by_cases h : t' = t
  · subst h
    simp [bumpVote, odGet_updOD_self]
  · simp [bumpVote, h, odGet_updOD_ne t' t (fun hh => h hh.symm)]

theorem votesFor_addVote (tv : List (String × List (String × Nat))) (c' t' c t : String) :
    votesFor (updOD tv c' (fun o => bumpVote (o.getD []) t')) c t =
      votesFor tv c t + (if c' = c ∧ t' = t then 1 else 0) := by
  by_cases hc : c' = c
  · subst hc
    unfold votesFor
    rw [odGet_updOD_self]
    simp only [Option.getD_some]
    rw [odGet_bumpVote]
    by_cases ht : t' = t
    · simp [ht]
    · simp [ht]
  · unfold votesFor
    rw [odGet_updOD_ne c' c (fun hh => hc hh.symm)]
    simp [hc]

theorem votesFor_buildTypeVotes (c t : String) :
    ∀ (txs : List SeedTxn) (tv0 : List (String × List (String × Nat))),
      votesFor
          (txs.foldl
            (fun tv tx =>
              match voteOf tx with
              | some ct => updOD tv ct.1 (fun o => bumpVote (o.getD []) ct.2)
              | none => tv) tv0) c t =
        votesFor tv0 c t + txs.countP (fun tx => voteOf tx = some (c, t)) := by
  intro txs
  induction txs with
  | nil => intro tv0; simp
  | cons tx ts ih =>
    intro tv0
    rw [List.foldl_cons, List.countP_cons]
    cases hv : voteOf tx with
    | none => simp [ih, hv]
    | some ct =>
      obtain ⟨c1, t1⟩ := ct
      rw [ih, votesFor_addVote]
      by_cases h : c1 = c ∧ t1 = t
      · obtain ⟨rfl, rfl⟩ := h
        simp [hv]
        omega
      · have : ¬voteOf tx = some (c, t) := by
          rw [hv]
          intro hh
          exact h (by simpa using hh)
        simp [h, this]

theorem foldlMax_mem (rest : List (String × Nat)) :
    ∀ b : String × Nat,
      rest.foldl (fun best x => if best.2 < x.2 then x else best) b ∈ b :: rest := by
  induction rest with
  | nil => intro b; simp
  | cons x xs ih =>
    intro b
    rw [List.foldl_cons]
    by_cases hb : b.2 < x.2
    · rw [if_pos hb]
      rcases List.mem_cons.mp (ih x) with h | h
      · rw [h]
        simp
      · simp [List.mem_cons_of_mem, h]
    · rw [if_neg hb]
      rcases List.mem_cons.mp (ih b) with h | h
      · rw [h]
        simp
      · simp [List.mem_cons_of_mem, h]

theorem foldlMax_ge (rest : List (String × Nat)) :
    ∀ (b : String × Nat) (p : String × Nat), p ∈ b :: rest →
      p.2 ≤ (rest.foldl (fun best x => if best.2 < x.2 then x else best) b).2 := by
  induction rest with
  | nil =>
    intro b p hp
    rcases List.mem_cons.mp hp with rfl | hp
    · simp
    · simp at hp
  | cons x xs ih =>
    intro b p hp
    rw [List.foldl_cons]
    have hstep : b.2 ≤ (if b.2 < x.2 then x else b).2 ∧
        x.2 ≤ (if b.2 < x.2 then x else b).2 := by
      by_cases hb : b.2 < x.2 <;> simp [hb] <;> omega
    rcases List.mem_cons.mp hp with rfl | hp
    · exact le_trans hstep.1 (ih _ _ (List.mem_cons_self _ _))
    · rcases List.mem_cons.mp hp with rfl | hp
      · exact le_trans hstep.2 (ih _ _ (List.mem_cons_self _ _))
      · exact ih _ p (List.mem_cons_of_mem _ hp)

theorem resolveOne_maximal (vs : List (String × Nat)) (hne : vs ≠ []) :
    ∃ n0, (resolveOne vs, n0) ∈ vs ∧ ∀ p ∈ vs, p.2 ≤ n0 := by
  match vs with
  | [] => exact absurd rfl hne
  | [tn] =>
    refine ⟨tn.2, ?_, ?_⟩
    · simp [resolveOne]
    · intro p hp
      rcases List.mem_singleton.mp hp with rfl
      exact le_refl _
  | tn :: tn2 :: rest =>
    have hmem := foldlMax_mem (tn2 :: rest) tn
    have hge := foldlMax_ge (tn2 :: rest) tn
    refine ⟨((tn2 :: rest).foldl (fun best x => if best.2 < x.2 then x else best) tn).2,
      ?_, hge⟩
    have : resolveOne (tn :: tn2 :: rest) =
        ((tn2 :: rest).foldl (fun best x => if best.2 < x.2 then x else best) tn).1 := by
      simp [resolveOne, pyMaxVotes]
    rw [this]
    simpa using hmem

theorem infer_income_iff (account_type : String) (amount : Option Rat) :
    infer_type_from_account_and_amount account_type amount = "income" ↔
      account_type ∈ STANDARD_SIGN_TYPES ∧ ∃ a, amount = some a ∧ 0 < a := by
  unfold infer_type_from_account_and_amount
  by_cases hm : account_type ∈ STANDARD_SIGN_TYPES
  · cases amount with
    | none => simp [hm]
    | some a =>
      by_cases ha : 0 < a
      · simp [hm, ha]
      · simp [hm, ha]
  · simp [hm]

theorem infer_income_or_expense (account_type : String) (amount : Option Rat) :
    infer_type_from_account_and_amount account_type amount = "income" ∨
      infer_type_from_account_and_amount account_type amount = "expense" := by
  unfold infer_type_from_account_and_amount
  by_cases hm : account_type ∈ STANDARD_SIGN_TYPES
  · cases amount with
    | none => simp [hm]
    | some a => by_cases ha : 0 < a <;> simp [hm, ha]
  · simp [hm]

/-- C7: every transaction with a non-blank stripped category casts exactly
one vote for its (category, inferred type) pair — the vote count of each
pair equals the number of transactions voting for it; the reserved label
votes `transfer` regardless of sign; otherwise the vote is `income`
exactly when the account type is standard and the amount is positive, and
`expense` in every other case; resolution picks a most-voted type (total,
so the backfill proceeds on conflicts), and the conflict list holds
exactly the categories whose votes span more than one type. -/
theorem c7_backfill_vote_resolution (txs : List SeedTxn) :
    (∀ c t, votesFor (buildTypeVotes txs) c t =
        txs.countP (fun tx => voteOf tx = some (c, t))) ∧
      (∀ tx, pyStrip (tx.category.getD "") = "" → voteOf tx = none) ∧
      (∀ tx, pyStrip (tx.category.getD "") = TRANSFER_CATEGORY →
        voteOf tx = some (TRANSFER_CATEGORY, "transfer")) ∧
      (∀ tx cat, cat = pyStrip (tx.category.getD "") → cat ≠ "" →
        cat ≠ TRANSFER_CATEGORY →
        (voteOf tx = some (cat, "income") ∨ voteOf tx = some (cat, "expense")) ∧
        (voteOf tx = some (cat, "income") ↔
          tx.account_type ∈ STANDARD_SIGN_TYPES ∧ ∃ a, tx.amount = some a ∧ 0 < a)) ∧
      (∀ vs : List (String × Nat), vs ≠ [] →
        ∃ n0, (resolveOne vs, n0) ∈ vs ∧ ∀ p ∈ vs, p.2 ≤ n0) ∧
      (∀ c, c ∈ conflictsOf (buildTypeVotes txs) ↔
        ∃ vs, (c, vs) ∈ buildTypeVotes txs ∧ 1 < vs.length) := by
  refine ⟨?_, ?_, ?_, ?_, fun vs => resolveOne_maximal vs, ?_⟩
  · intro c t
    simpa [buildTypeVotes, votesFor, odGet] using votesFor_buildTypeVotes c t txs []
  · intro tx hblank
    simp [voteOf, hblank]
  · intro tx hna
    have h1 : ¬(TRANSFER_CATEGORY = "") := by decide
    simp [voteOf, hna, h1]
  · intro tx cat hcat hne hna
    have hv : voteOf tx =
        some (cat, infer_type_from_account_and_amount tx.account_type tx.amount) := by
      simp [voteOf, ← hcat, hne, hna]
    constructor
    · rcases infer_income_or_expense tx.account_type tx.amount with h | h <;>
        rw [hv, h] <;> simp
    · rw [hv]
      rw [← infer_income_iff tx.account_type tx.amount]
      constructor
      · intro h
        exact congrArg Prod.snd (Option.some.inj h)
      · intro h
        rw [h]
  · intro c
    rw [conflictsOf, List.mem_filterMap]
    constructor
    · rintro ⟨⟨c1, vs⟩, hmem, heq⟩
      by_cases hlen : 1 < vs.length
      · simp only [hlen, if_pos] at heq
        exact ⟨vs, Option.some.inj heq ▸ hmem, hlen⟩
      · simp [hlen] at heq
    · rintro ⟨vs, hmem, hlen⟩
      exact ⟨(c, vs), hmem, by simp [hlen]⟩

/-- C7 witness: the `Misc` scenario — three income votes and five expense
votes resolve to `expense` and the category is flagged as a conflict. -/
theorem c7_backfill_vote_resolution_witness :
    votesFor (buildTypeVotes
        (List.replicate 3 (⟨some " Misc ", none, some 5, "checking"⟩ : SeedTxn) ++
          List.replicate 5 (⟨some " Misc ", none, some (-2), "checking"⟩ : SeedTxn)))
        "Misc" "income" = 3 ∧
      votesFor (buildTypeVotes
        (List.replicate 3 (⟨some " Misc ", none, some 5, "checking"⟩ : SeedTxn) ++
          List.replicate 5 (⟨some " Misc ", none, some (-2), "checking"⟩ : SeedTxn)))
        "Misc" "expense" = 5 ∧
      resolveAll (buildTypeVotes
        (List.replicate 3 (⟨some " Misc ", none, some 5, "checking"⟩ : SeedTxn) ++
          List.replicate 5 (⟨some " Misc ", none, some (-2), "checking"⟩ : SeedTxn))) =
        [("Misc", "expense")] ∧
      conflictsOf (buildTypeVotes
        (List.replicate 3 (⟨some " Misc ", none, some 5, "checking"⟩ : SeedTxn) ++
          List.replicate 5 (⟨some " Misc ", none, some (-2), "checking"⟩ : SeedTxn))) =
        ["Misc"] := by
  refine ⟨?_, ?_, ?_, ?_⟩
  · rw [(c7_backfill_vote_resolution _).1 "Misc" "income"]
    decide
  · rw [(c7_backfill_vote_resolution _).1 "Misc" "expense"]
    decide
  · decide
  · decide

/-! ### C5: date parser -/

theorem tryFormats_some_iff (cs : List Char) :
    ∀ (fs : List (List FmtDir)) (dt : PyDateTime),
      tryFormats fs cs = some dt ↔
        ∃ i f, fs.get? i = some f ∧ strptime f cs = some dt ∧
          ∀ j g, j < i → fs.get? j = some g → strptime g cs = none := by
  intro fs
  induction fs with
  | nil =>
    intro dt
    simp [tryFormats]
  | cons f fs ih =>
    intro dt
    rw [tryFormats]
    cases h : strptime f cs with
    | some d =>
      simp only [Option.some.injEq]
      constructor
      · rintro rfl
        exact ⟨0, f, rfl, h, fun j g hj => absurd hj (Nat.not_lt_zero j)⟩
      · rintro ⟨i, g, hget, hg, hfirst⟩
        match i with
        | 0 =>
          obtain rfl : f = g := Option.some.inj hget
          rw [h] at hg
          exact Option.some.inj hg
        | i + 1 =>
          have := hfirst 0 f (Nat.succ_pos i) rfl
          rw [h] at this
          exact absurd this (Option.some_ne_none d)
    | none =>
      rw [ih dt]
      constructor
      · rintro ⟨i, g, hget, hg, hfirst⟩
        refine ⟨i + 1, g, hget, hg, ?_⟩
        intro j g' hj hget'
        match j with
        | 0 => exact Option.some.inj hget' ▸ h
        | j + 1 => exact hfirst j g' (Nat.lt_of_succ_lt_succ hj) hget'
      · rintro ⟨i, g, hget, hg, hfirst⟩
        match i with
        | 0 =>
          obtain rfl : f = g := Option.some.inj hget
          rw [h] at hg
          exact absurd hg (Option.noConfusion)
        | i + 1 =>
          refine ⟨i, g, hget, hg, ?_⟩
          intro j g' hj hget'
          exact hfirst (j + 1) g' (Nat.succ_lt_succ hj) hget'

theorem tryFormats_none_iff (cs : List Char) :
    ∀ fs : List (List FmtDir),
      tryFormats fs cs = none ↔
        ∀ i f, fs.get? i = some f → strptime f cs = none := by
  intro fs
  induction fs with
  | nil => simp [tryFormats]
  | cons f fs ih =>
    rw [tryFormats]
    cases h : strptime f cs with
    | some d =>
      simp only [Option.some_ne_none d, false_iff]
      push_neg
      exact ⟨0, f, rfl, by rw [h]; exact Option.some_ne_none d⟩
    | none =>
      rw [ih]
      constructor
      · intro hall j g hget
        match j with
        | 0 => exact Option.some.inj hget ▸ h
        | j + 1 => exact hall j g hget
      · intro hall j g hget
        exact hall (j + 1) g hget

/-- C5: the date parser returns `none` for `None`, empty and
whitespace-only input; otherwise it tries exactly the six patterns of
`DATE_FORMATS` in order and returns the first successful `strptime`,
returning `none` exactly when all six fail.  The function is total, so no
exception reaches the caller. -/
theorem c5_date_parser_first_match (v : String) :
    (pyStrip v = "" → _parse_date (some v) = none) ∧
      _parse_date none = none ∧
      (∀ dt, _parse_date (some v) = some dt ↔
        pyStrip v ≠ "" ∧
          ∃ i f, DATE_FORMATS.get? i = some f ∧
            strptime f (pyStrip v).toList = some dt ∧
            ∀ j g, j < i → DATE_FORMATS.get? j = some g →
              strptime g (pyStrip v).toList = none) ∧
      (_parse_date (some v) = none ↔
        pyStrip v = "" ∨
          ∀ i f, DATE_FORMATS.get? i = some f →
            strptime f (pyStrip v).toList = none) := by
  by_cases hb : pyStrip v = ""
  · refine ⟨fun _ => by simp [_parse_date, hb], rfl, ?_, ?_⟩
    · intro dt
      simp [_parse_date, hb]
    · simp [_parse_date, hb]
  · refine ⟨fun h => absurd h hb, rfl, ?_, ?_⟩
    · intro dt
      rw [show _parse_date (some v) = tryFormats DATE_FORMATS (pyStrip v).toList by
        simp [_parse_date, hb]]
      rw [tryFormats_some_iff]
      simp [hb]
    · rw [show _parse_date (some v) = tryFormats DATE_FORMATS (pyStrip v).toList by
        simp [_parse_date, hb]]
      rw [tryFormats_none_iff]
      simp [hb]

/-- C5 witness: whitespace gives no value, and `02/03/2025` is taken by
the second pattern `MM/DD/YYYY` (February 3), the first pattern having
failed — order decides the ambiguity. -/
theorem c5_date_parser_first_match_witness :
    _parse_date (some "  ") = none ∧
      _parse_date (some "02/03/2025") = some ⟨2025, 2, 3, 0, 0, 0⟩ := by
  constructor
  · exact (c5_date_parser_first_match "  ").1 (by decide)
  · refine ((c5_date_parser_first_match "02/03/2025").2.2.1 ⟨2025, 2, 3, 0, 0, 0⟩).mpr
      ⟨by decide, 1, fmtMDY4, by decide, by decide, ?_⟩
    intro j g hj hget
    obtain rfl : j = 0 := Nat.lt_one_iff.mp hj
    obtain rfl : fmtISO = g := Option.some.inj hget
    decide

/-! ### C6: amount parser -/

/-- Character list of a plain decimal literal: optional minus sign,
integer digits, and a fractional part when present. -/
def decChars (neg : Bool) (ip fp : List Nat) : List Char :=
  (if neg then ['-'] else []) ++ ip.map digitChar ++
    (if fp = [] then [] else '.' :: fp.map digitChar)

/-- Exact rational value of the same literal. -/
def decValue (neg : Bool) (ip fp : List Nat) : Rat :=
  (if neg then -1 else 1) *
    ((digitsVal ip : Rat) + (digitsVal fp : Rat) / (10 : Rat) ^ fp.length)

theorem digitChar_spec (d : Nat) (h : d < 10) :
    (digitChar d).isDigit = true ∧ digitVal (digitChar d) = d ∧
      digitChar d ≠ '_' ∧ digitChar d ≠ '-' ∧ digitChar d ≠ '+' ∧
      digitChar d ≠ '.' ∧ (digitChar d).isWhitespace = false := by
  interval_cases d <;> decide

theorem takeDigits_map_append (rest : List Char)
    (hrest : ∀ c, rest.head? = some c → c.isDigit = false) :
    ∀ ds : List Nat, (∀ d ∈ ds, d < 10) →
      takeDigits (ds.map digitChar ++ rest) = (ds, rest) := by
  intro ds
  induction ds with
  | nil =>
    intro _
    cases hr : rest with
    | nil => simp [takeDigits]
    | cons c cs =>
      have := hrest c (by rw [hr]; rfl)
      simp [takeDigits, this]
  | cons d ds ih =>
    intro hds
    have hd := digitChar_spec d (hds d (List.mem_cons_self _ _))
    have ih' := ih (fun x hx => hds x (List.mem_cons_of_mem _ hx))
    simp only [List.map_cons, List.cons_append, takeDigits, hd.1, if_pos,
      List.append_eq]
    rw [ih']
    simp [hd.2.1]

theorem dropWhile_eq_self_of_none {α : Type} (p : α → Bool) :
    ∀ l : List α, (∀ c ∈ l, p c = false) → l.dropWhile p = l := by
  intro l h
  cases l with
  | nil => rfl
  | cons c cs =>
    rw [List.dropWhile_cons]
    simp [h c (List.mem_cons_self _ _)]

theorem mem_decChars (neg : Bool) (ip fp : List Nat) (c : Char) :
    c ∈ decChars neg ip fp →
      c = '-' ∨ c = '.' ∨ ∃ d, (d ∈ ip ∨ d ∈ fp) ∧ c = digitChar d := by
  intro hc
  simp only [decChars, List.mem_append] at hc
  rcases hc with (hc | hc) | hc
  · left
    by_cases hn : neg
    · simp [hn] at hc
      exact hc
    · simp [hn] at hc
  · rcases List.mem_map.mp hc with ⟨d, hd, rfl⟩
    exact Or.inr (Or.inr ⟨d, Or.inl hd, rfl⟩)
  · by_cases hf : fp = []
    · simp [hf] at hc
    · simp only [hf, if_neg, not_false_eq_true, List.mem_cons] at hc
      rcases hc with rfl | hc
      · exact Or.inr (Or.inl rfl)
      · rcases List.mem_map.mp hc with ⟨d, hd, rfl⟩
        exact Or.inr (Or.inr ⟨d, Or.inr hd, rfl⟩)

theorem pyDecimal_decChars (neg : Bool) (ip fp : List Nat)
    (hip : ∀ d ∈ ip, d < 10) (hfp : ∀ d ∈ fp, d < 10) (hne : ip ≠ []) :
    pyDecimalOfString (String.mk (decChars neg ip fp)) =
      some (decValue neg ip fp) := by
  have hnws : ∀ c ∈ decChars neg ip fp, c.isWhitespace = false := by
    intro c hc
    rcases mem_decChars neg ip fp c hc with rfl | rfl | ⟨d, hd, rfl⟩
    · decide
    · decide
    · exact (digitChar_spec d (hd.elim (hip d) (hfp d))).2.2.2.2.2.2
  have hnus : ∀ c ∈ decChars neg ip fp, (c ≠ '_' : Bool) = true := by
    intro c hc
    rcases mem_decChars neg ip fp c hc with rfl | rfl | ⟨d, hd, rfl⟩
    · decide
    · decide
    · simpa using (digitChar_spec d (hd.elim (hip d) (hfp d))).2.2.1
  have htail : ∀ c, (if fp = [] then ([] : List Char) else '.' :: fp.map digitChar).head? =
      some c → c.isDigit = false := by
    intro c hc
    by_cases hf : fp = []
    · simp [hf] at hc
    · simp only [hf, if_neg, not_false_eq_true, List.head?_cons] at hc
      obtain rfl : ('.' : Char) = c := Option.some.inj hc
      decide
  obtain ⟨d0, ip', rfl⟩ : ∃ d0 ip', ip = d0 :: ip' := by
    cases ip with
    | nil => exact absurd rfl hne
    | cons a l => exact ⟨a, l, rfl⟩
  have hd0 := digitChar_spec d0 (hip d0 (List.mem_cons_self _ _))
  simp only [pyDecimalOfString]
  rw [show (String.mk (decChars neg (d0 :: ip') fp)).toList =
    decChars neg (d0 :: ip') fp from rfl]
  rw [List.filter_eq_self.mpr hnus]
  rw [dropWhile_eq_self_of_none _ _ hnws]
  rw [dropWhile_eq_self_of_none _ _ (by
    intro c hc
    exact hnws c (List.mem_reverse.mp hc))]
  rw [List.reverse_reverse]
  have hsign : parseSign (decChars neg (d0 :: ip') fp) =
      (neg, (d0 :: ip').map digitChar ++
        (if fp = [] then [] else '.' :: fp.map digitChar)) := by
    cases neg with
    | true => simp [decChars, parseSign]
    | false =>
      simp only [decChars, Bool.false_eq_true, if_false, List.nil_append,
        List.map_cons, List.cons_append, parseSign]
      rw [if_neg hd0.2.2.2.1, if_neg hd0.2.2.2.2.1]
  rw [hsign]
  rw [takeDigits_map_append _ htail _ hip]
  by_cases hf : fp = []
  · subst hf
    simp only [if_pos]
    rw [if_neg (by simp)]
    cases neg <;> simp [finishMantissa, decValue, digitsVal] <;> ring
  · simp only [hf, if_neg, not_false_eq_true]
    have h2 := takeDigits_map_append [] (by intro c hc; simp at hc) fp hfp
    rw [List.append_nil] at h2
    rw [h2]
    rw [if_neg (by simp)]
    cases neg <;> simp [finishMantissa, decValue] <;> ring

/-- C6: on any input whose cleaned form (stripped, with `$`, commas and
spaces removed) is a plain decimal literal, the amount parser returns the
exact rational value of that literal; `None` and inputs that clean to the
empty string give no value.  The function is total, so no exception
reaches the caller, and the value is an exact rational, never a binary
float. -/
theorem c6_amount_parser_exact (s : String) :
    (∀ (neg : Bool) (ip fp : List Nat),
        (∀ d ∈ ip, d < 10) → (∀ d ∈ fp, d < 10) → ip ≠ [] →
        cleanAmount s = String.mk (decChars neg ip fp) →
        _parse_amount (some s) = some (decValue neg ip fp)) ∧
      _parse_amount none = none ∧
      (cleanAmount s = "" → _parse_amount (some s) = none) := by
  refine ⟨?_, rfl, ?_⟩
  · intro neg ip fp hip hfp hne hclean
    have hnonempty : ¬cleanAmount s = "" := by
      rw [hclean]
      intro h
      have hdata : decChars neg ip fp = ([] : List Char) := congrArg String.toList h
      have hmapnil : ip.map digitChar = [] := by
        rcases List.append_eq_nil.mp hdata with ⟨h1, h2⟩
        rcases List.append_eq_nil.mp h1 with ⟨_, h3⟩
        exact h3
      exact hne (List.map_eq_nil.mp hmapnil)
    have hstep : _parse_amount (some s) = pyDecimalOfString (cleanAmount s) := by
      simp [_parse_amount, hnonempty]
    rw [hstep, hclean]
    exact pyDecimal_decChars neg ip fp hip hfp hne
  · intro h
    simp [_parse_amount, h]

/-- C6 witness: the two concrete examples of the spec, recovered exactly:
a dollar sign, a thousands separator and surrounding whitespace are
stripped and the decimal value is exact. -/
theorem c6_amount_parser_exact_witness :
    _parse_amount (some "$1,234.50") = some ((2469 : Rat) / 2) ∧
      _parse_amount (some " -12 ") = some (-12) ∧
      _parse_amount (some "") = none := by
  refine ⟨?_, ?_, ?_⟩
  · rw [(c6_amount_parser_exact "$1,234.50").1 false [1, 2, 3, 4] [5, 0]
      (by decide) (by decide) (by decide) (by decide)]
    norm_num [decValue, digitsVal]
  · rw [(c6_amount_parser_exact " -12 ").1 true [1, 2] []
      (by decide) (by decide) (by decide) (by decide)]
    norm_num [decValue, digitsVal]
  · exact (c6_amount_parser_exact "").2.2 (by decide)

/-! ### C3: report hierarchy totals -/

theorem buildCat_foldl (l : List (SubKey × Rat)) (xs : List SubOut) (t : Rat) :
    l.foldl (fun acc kv => (acc.1 ++ [SubOut.mk kv.1.1 kv.1.2 kv.2], acc.2 + kv.2))
        (xs, t) =
      (xs ++ l.map (fun kv => SubOut.mk kv.1.1 kv.1.2 kv.2),
        t + (l.map (fun kv => kv.2)).sum) :=
  foldl_append_snd_rat (fun kv => SubOut.mk kv.1.1 kv.1.2 kv.2) (fun kv => kv.2) l xs t

theorem buildSection_foldl (l : List (CatKey × List (SubKey × Rat))) (xs : List CatOut)
    (t : Rat) :
    l.foldl
        (fun acc kv => (acc.1 ++ [buildCat kv.1 kv.2], acc.2 + (buildCat kv.1 kv.2).total))
        (xs, t) =
      (xs ++ l.map (fun kv => buildCat kv.1 kv.2),
        t + (l.map (fun kv => (buildCat kv.1 kv.2).total)).sum) :=
  foldl_append_snd_rat (fun kv => buildCat kv.1 kv.2)
    (fun kv => (buildCat kv.1 kv.2).total) l xs t

theorem buildMSection_foldl (l : List (CatKey × MCatData)) (xs : List MCatOut)
    (t : Months) :
    l.foldl
        (fun acc kv => (acc.1 ++ [buildMCat kv.1 kv.2], addMonths acc.2 kv.2.months))
        (xs, t) =
      (xs ++ l.map (fun kv => buildMCat kv.1 kv.2),
        fun m => t m + (l.map (fun kv => kv.2.months m)).sum) :=
  foldl_append_snd_months (fun kv => buildMCat kv.1 kv.2) (fun kv => kv.2.months) l xs t

theorem buildCat_eq (ck : CatKey) (subs : List (SubKey × Rat)) :
    buildCat ck subs =
      ⟨ck.1, ck.2,
        (pySorted (fun a b => keyLE a.1.1 b.1.1) subs).map
          (fun kv => SubOut.mk kv.1.1 kv.1.2 kv.2),
        ((pySorted (fun a b => keyLE a.1.1 b.1.1) subs).map (fun kv => kv.2)).sum⟩ := by
  simp only [buildCat]
  rw [buildCat_foldl]
  simp

theorem buildSection_eq (ty lb : String) (cats : List (CatKey × List (SubKey × Rat))) :
    buildSection ty lb cats =
      ⟨ty, lb,
        (pySorted (fun a b => keyLE a.1.1 b.1.1) cats).map
          (fun kv => buildCat kv.1 kv.2),
        ((pySorted (fun a b => keyLE a.1.1 b.1.1) cats).map
          (fun kv => (buildCat kv.1 kv.2).total)).sum⟩ := by
  simp only [buildSection]
  rw [buildSection_foldl]
  simp

theorem buildCat_total (ck : CatKey) (subs : List (SubKey × Rat)) :
    (buildCat ck subs).total =
      ((buildCat ck subs).subcategories.map SubOut.total).sum := by
  rw [buildCat_eq]
  simp only [List.map_map]
  rw [show (SubOut.total ∘ fun kv : SubKey × Rat => SubOut.mk kv.1.1 kv.1.2 kv.2) =
    (fun kv : SubKey × Rat => kv.2) from rfl]

theorem buildSection_props (ty lb : String) (cats : List (CatKey × List (SubKey × Rat))) :
    (buildSection ty lb cats).total =
        ((buildSection ty lb cats).categories.map CatOut.total).sum ∧
      ∀ cat ∈ (buildSection ty lb cats).categories,
        cat.total = (cat.subcategories.map SubOut.total).sum := by
  rw [buildSection_eq]
  constructor
  · simp only [List.map_map]
    rw [show (CatOut.total ∘ fun kv : CatKey × List (SubKey × Rat) =>
      buildCat kv.1 kv.2) =
      (fun kv : CatKey × List (SubKey × Rat) => (buildCat kv.1 kv.2).total) from rfl]
  · intro cat hcat
    simp only at hcat
    rcases List.mem_map.mp hcat with ⟨kv, _, rfl⟩
    exact buildCat_total kv.1 kv.2

theorem buildMSection_eq (ty lb : String) (pivot : List (PivotKey × Months)) :
    buildMSection ty lb pivot =
      ⟨ty, lb,
        (pySorted (fun a b => keyLE a.1.1 b.1.1) (collectCats ty pivot)).map
          (fun kv => buildMCat kv.1 kv.2),
        (fun m => ((pySorted (fun a b => keyLE a.1.1 b.1.1) (collectCats ty pivot)).map
          (fun kv => kv.2.months m)).sum),
        ytdOf (fun m =>
          ((pySorted (fun a b => keyLE a.1.1 b.1.1) (collectCats ty pivot)).map
            (fun kv => kv.2.months m)).sum)⟩ := by
  simp only [buildMSection]
  rw [buildMSection_foldl]
  have hm : (fun m => zeroMonths m +
      ((pySorted (fun a b => keyLE a.1.1 b.1.1) (collectCats ty pivot)).map
        (fun kv => kv.2.months m)).sum) =
      (fun m => ((pySorted (fun a b => keyLE a.1.1 b.1.1) (collectCats ty pivot)).map
        (fun kv => kv.2.months m)).sum) := by
    funext m
    simp [zeroMonths]
  simp only [List.nil_append, hm]

theorem sum_subs_updOD (sk : SubKey) (mt : Months) (m : Fin 12) :
    ∀ subs : List (SubKey × Months),
      ((updOD subs sk (fun so => addMonths (so.getD zeroMonths) mt)).map
        (fun p => p.2 m)).sum =
        (subs.map (fun p => p.2 m)).sum + mt m := by
  intro subs
  induction subs with
  | nil => simp [updOD, addMonths, zeroMonths]
  | cons kv rest ih =>
    simp only [updOD]
    by_cases h : kv.1 = sk
    · simp only [h, if_pos, List.map_cons, List.sum_cons, Option.getD_some, addMonths]
      ring
    · simp only [h, if_neg, not_false_eq_true, List.map_cons, List.sum_cons, ih]
      ring

theorem collectCats_months_sum (ty : String) (pivot : List (PivotKey × Months)) :
    ∀ p ∈ collectCats ty pivot,
      ∀ m, p.2.months m = (p.2.subs.map (fun sp => sp.2 m)).sum := by
  have main : ∀ (entries : List (PivotKey × Months)) (acc : List (CatKey × MCatData)),
      (∀ p ∈ acc, ∀ m, p.2.months m = (p.2.subs.map (fun sp => sp.2 m)).sum) →
      ∀ p ∈ entries.foldl
        (fun cats_map e =>
          if e.1.1 = ty then
            updOD cats_map e.1.2.1 (fun o =>
              let cd := o.getD ⟨[], zeroMonths⟩
              ⟨updOD cd.subs e.1.2.2 (fun so => addMonths (so.getD zeroMonths) e.2),
               addMonths cd.months e.2⟩)
          else cats_map) acc,
        ∀ m, p.2.months m = (p.2.subs.map (fun sp => sp.2 m)).sum := by
    intro entries
    induction entries with
    | nil => intro acc hacc; exact hacc
    | cons e es ih =>
      intro acc hacc
      rw [List.foldl_cons]
      by_cases hty : e.1.1 = ty
      · rw [if_pos hty]
        apply ih
        intro p hp m
        rcases mem_updOD _ _ _ p hp with hin | heq
        · exact hacc p hin m
        · subst heq
          simp only
          cases hget : odGet acc e.1.2.1 with
          | none =>
            simp only [hget, Option.getD_none]
            rw [sum_subs_updOD]
            simp [addMonths, zeroMonths]
          | some cd =>
            simp only [hget, Option.getD_some]
            rw [sum_subs_updOD]
            have := hacc (e.1.2.1, cd) (odGet_mem _ _ _ hget) m
            simp only at this
            simp [addMonths, this]
      · rw [if_neg hty]
        exact ih acc hacc
  intro p hp
  exact main pivot [] (by intro p hp; simp at hp) p hp

theorem sum_map_perm_snd {α : Type} (f : α → Rat) (le : α → α → Bool) (l : List α) :
    ((pySorted le l).map f).sum = (l.map f).sum :=
  List.Perm.sum_eq ((pySorted_perm le l).map f)

theorem buildMCat_months_sum (ck : CatKey) (cd : MCatData)
    (hinv : ∀ m, cd.months m = (cd.subs.map (fun sp => sp.2 m)).sum) :
    ∀ m, (buildMCat ck cd).months m =
      ((buildMCat ck cd).subcategories.map (fun s => s.months m)).sum := by
  intro m
  unfold buildMCat
  simp only [List.map_map]
  have : ((fun s : MSubOut => s.months m) ∘
      fun kv : SubKey × Months => MSubOut.mk kv.1.1 kv.1.2 kv.2 (ytdOf kv.2)) =
      fun kv : SubKey × Months => kv.2 m := rfl
  rw [this, sum_map_perm_snd]
  exact hinv m

theorem buildMSection_props (ty lb : String) (pivot : List (PivotKey × Months)) :
    (∀ m, (buildMSection ty lb pivot).months m =
        ((buildMSection ty lb pivot).categories.map (fun c => c.months m)).sum) ∧
      (buildMSection ty lb pivot).ytd =
        ∑ m : Fin 12, (buildMSection ty lb pivot).months m ∧
      ∀ cat ∈ (buildMSection ty lb pivot).categories,
        (∀ m, cat.months m = (cat.subcategories.map (fun sc => sc.months m)).sum) ∧
        cat.ytd = ∑ m : Fin 12, cat.months m ∧
        ∀ sub ∈ cat.subcategories, sub.ytd = ∑ m : Fin 12, sub.months m := by
  rw [buildMSection_eq]
  refine ⟨?_, rfl, ?_⟩
  · intro m
    rw [List.map_map]
    rfl
  · intro cat hcat
    simp only at hcat
    rcases List.mem_map.mp hcat with ⟨kv, hkv, rfl⟩
    have hinv := collectCats_months_sum ty pivot kv
      ((pySorted_perm _ _).mem_iff.mp hkv)
    refine ⟨buildMCat_months_sum kv.1 kv.2 hinv, rfl, ?_⟩
    intro sub hsub
    unfold buildMCat at hsub
    simp only at hsub
    rcases List.mem_map.mp hsub with ⟨skv, _, rfl⟩
    rfl

/-- C3: in both report modes each category total is the sum of its
subcategory totals and each section total is the sum of its category
totals; in monthly mode these equalities hold independently for each of
the twelve month slots, and every YTD value — per subcategory, category,
section, and the grand totals — is the sum of the twelve month values. -/
theorem c3_report_hierarchy_totals (rows : List SummaryRow) (mrows : List MonthlyRow) :
    (∀ sec ∈ (_build_summary_sections rows).1,
      sec.total = (sec.categories.map CatOut.total).sum ∧
        ∀ cat ∈ sec.categories,
          cat.total = (cat.subcategories.map SubOut.total).sum) ∧
      (∀ sec ∈ (monthlyReport mrows).sections,
        (∀ m, sec.months m = (sec.categories.map (fun c => c.months m)).sum) ∧
          sec.ytd = ∑ m : Fin 12, sec.months m ∧
          ∀ cat ∈ sec.categories,
            (∀ m, cat.months m = (cat.subcategories.map (fun sc => sc.months m)).sum) ∧
              cat.ytd = ∑ m : Fin 12, cat.months m ∧
              ∀ sub ∈ cat.subcategories, sub.ytd = ∑ m : Fin 12, sub.months m) ∧
      ((monthlyReport mrows).total_revenues.ytd =
          ∑ m : Fin 12, (monthlyReport mrows).total_revenues.months m ∧
        (monthlyReport mrows).total_expenses.ytd =
          ∑ m : Fin 12, (monthlyReport mrows).total_expenses.months m ∧
        (monthlyReport mrows).net_income.ytd =
          ∑ m : Fin 12, (monthlyReport mrows).net_income.months m) := by
  refine ⟨?_, ?_, rfl, rfl, rfl⟩
  · intro sec hsec
    have hlist : (_build_summary_sections rows).1 =
        [buildSection "income" "Revenues"
          ((odGet (rows.foldl insRow []) "income").getD []),
         buildSection "expense" "Expenses"
          ((odGet (rows.foldl insRow []) "expense").getD [])] := rfl
    rw [hlist] at hsec
    rcases List.mem_cons.mp hsec with rfl | hsec
    · exact buildSection_props _ _ _
    · rcases List.mem_cons.mp hsec with rfl | hsec
      · exact buildSection_props _ _ _
      · simp at hsec
  · intro sec hsec
    have hlist : (monthlyReport mrows).sections =
        [buildMSection "income" "Revenues" (mrows.foldl insPivotRow []),
         buildMSection "expense" "Expenses" (mrows.foldl insPivotRow [])] := rfl
    rw [hlist] at hsec
    rcases List.mem_cons.mp hsec with rfl | hsec
    · exact buildMSection_props _ _ _
    · rcases List.mem_cons.mp hsec with rfl | hsec
      · exact buildMSection_props _ _ _
      · simp at hsec

/-- Shared example rows for the report claims. -/
def wRows : List SummaryRow :=
  [⟨some 1, some "A", some "income", some 5, some "x", some 7⟩,
   ⟨some 1, some "A", some "income", none, none, some 3⟩]

/-- Shared example rows for the monthly report claims. -/
def wMRows : List MonthlyRow :=
  [⟨0, some 1, some "A", some "expense", some 9, some "s", some 5⟩]

/-- C3 witness: the hierarchy-totals equalities instantiated on the income
summary section and the expense monthly section of concrete reports. -/
theorem c3_report_hierarchy_totals_witness :
    (buildSection "income" "Revenues"
        ((odGet (wRows.foldl insRow []) "income").getD [])).total =
      ((buildSection "income" "Revenues"
        ((odGet (wRows.foldl insRow []) "income").getD [])).categories.map
          CatOut.total).sum ∧
      (buildMSection "expense" "Expenses" (wMRows.foldl insPivotRow [])).ytd =
        ∑ m : Fin 12,
          (buildMSection "expense" "Expenses" (wMRows.foldl insPivotRow [])).months m := by
  constructor
  · exact ((c3_report_hierarchy_totals wRows wMRows).1 _ (List.mem_cons_self _ _)).1
  · exact ((c3_report_hierarchy_totals wRows wMRows).2.1 _
      (List.mem_cons_of_mem _ (List.mem_cons_self _ _))).2.1

/-! ### C2: report ordering

The Python sort key is `(x[0][0] is None, x[0][0])` and `False < True`, so
integer identities sort first, ascending, and a null identity sorts after
every integer identity — null last, not null first.  `keyLE` is exactly
that tuple order, so `Pairwise keyLE` states the code's ordering. -/

theorem buildSection_sorted (ty lb : String) (cats : List (CatKey × List (SubKey × Rat))) :
    List.Pairwise (fun a b => keyLE a.id b.id = true)
        (buildSection ty lb cats).categories ∧
      ∀ cat ∈ (buildSection ty lb cats).categories,
        List.Pairwise (fun a b => keyLE a.id b.id = true) cat.subcategories := by
  rw [buildSection_eq]
  constructor
  · refine List.Pairwise.map _ ?_
      (pairwise_pySorted _ (fun a b => keyLE_total a.1.1 b.1.1)
        (fun a b c => keyLE_trans a.1.1 b.1.1 c.1.1) cats)
    intro a b h
    exact h
  · intro cat hcat
    simp only at hcat
    rcases List.mem_map.mp hcat with ⟨kv, _, rfl⟩
    rw [buildCat_eq]
    refine List.Pairwise.map _ ?_
      (pairwise_pySorted _ (fun a b => keyLE_total a.1.1 b.1.1)
        (fun a b c => keyLE_trans a.1.1 b.1.1 c.1.1) kv.2)
    intro a b h
    exact h

theorem buildMSection_sorted (ty lb : String) (pivot : List (PivotKey × Months)) :
    List.Pairwise (fun a b => keyLE a.id b.id = true)
        (buildMSection ty lb pivot).categories ∧
      ∀ cat ∈ (buildMSection ty lb pivot).categories,
        List.Pairwise (fun a b => keyLE a.id b.id = true) cat.subcategories := by
  rw [buildMSection_eq]
  constructor
  · refine List.Pairwise.map _ ?_
      (pairwise_pySorted _ (fun a b => keyLE_total a.1.1 b.1.1)
        (fun a b c => keyLE_trans a.1.1 b.1.1 c.1.1) (collectCats ty pivot))
    intro a b h
    exact h
  · intro cat hcat
    simp only at hcat
    rcases List.mem_map.mp hcat with ⟨kv, _, rfl⟩
    unfold buildMCat
    refine List.Pairwise.map _ ?_
      (pairwise_pySorted _ (fun a b => keyLE_total a.1.1 b.1.1)
        (fun a b c => keyLE_trans a.1.1 b.1.1 c.1.1) kv.2.subs)
    intro a b h
    exact h

/-- C2 amended: in both report modes and within every section, the
categories are ordered by the sort key `(id is None, id)` — the non-null
identities ascending first, then the null identity last; the same rule
orders subcategories within each category.  (The claim as stated — null
first — is refuted by `c2_ordering_counterexample`.) -/
theorem c2_ordering_nonnull_ascending_null_last (rows : List SummaryRow)
    (mrows : List MonthlyRow) :
    (∀ sec ∈ (_build_summary_sections rows).1,
      List.Pairwise (fun a b => keyLE a.id b.id = true) sec.categories ∧
        ∀ cat ∈ sec.categories,
          List.Pairwise (fun a b => keyLE a.id b.id = true) cat.subcategories) ∧
      (∀ sec ∈ (monthlyReport mrows).sections,
        List.Pairwise (fun a b => keyLE a.id b.id = true) sec.categories ∧
          ∀ cat ∈ sec.categories,
            List.Pairwise (fun a b => keyLE a.id b.id = true) cat.subcategories) := by
  constructor
  · intro sec hsec
    have hlist : (_build_summary_sections rows).1 =
        [buildSection "income" "Revenues"
          ((odGet (rows.foldl insRow []) "income").getD []),
         buildSection "expense" "Expenses"
          ((odGet (rows.foldl insRow []) "expense").getD [])] := rfl
    rw [hlist] at hsec
    rcases List.mem_cons.mp hsec with rfl | hsec
    · exact buildSection_sorted _ _ _
    · rcases List.mem_cons.mp hsec with rfl | hsec
      · exact buildSection_sorted _ _ _
      · simp at hsec
  · intro sec hsec
    have hlist : (monthlyReport mrows).sections =
        [buildMSection "income" "Revenues" (mrows.foldl insPivotRow []),
         buildMSection "expense" "Expenses" (mrows.foldl insPivotRow [])] := rfl
    rw [hlist] at hsec
    rcases List.mem_cons.mp hsec with rfl | hsec
    · exact buildMSection_sorted _ _ _
    · rcases List.mem_cons.mp hsec with rfl | hsec
      · exact buildMSection_sorted _ _ _
      · simp at hsec

/-- Rows with category ids `[None, 3, 1]`, all in the expense bucket. -/
def exC2Rows : List SummaryRow :=
  [⟨none, none, some "expense", some 1, some "s", some 1⟩,
   ⟨some 3, some "C", some "expense", some 1, some "s", some 1⟩,
   ⟨some 1, some "A", some "expense", some 1, some "s", some 1⟩]

/-- C2 counterexample: category ids `[None, 3, 1]` come out of the sort as
`[1, 3, None]` — integer ids ascending, null LAST — not `[None, 1, 3]` as
the claim states. -/
theorem c2_ordering_counterexample :
    (((_build_summary_sections exC2Rows).1.getD 1 ⟨"", "", [], 0⟩).categories.map
        (fun c => c.id)) = [some 1, some 3, none] ∧
      (((_build_summary_sections exC2Rows).1.getD 1 ⟨"", "", [], 0⟩).categories.map
        (fun c => c.id)) ≠ [none, some 1, some 3] := by
  constructor
  · decide
  · decide

/-- C2 witness: the amended ordering on the expense section of the
counterexample data. -/
theorem c2_ordering_nonnull_ascending_null_last_witness :
    List.Pairwise (fun a b => keyLE a.id b.id = true)
      (buildSection "expense" "Expenses"
        ((odGet (exC2Rows.foldl insRow []) "expense").getD [])).categories :=
  ((c2_ordering_nonnull_ascending_null_last exC2Rows wMRows).1 _
    (List.mem_cons_of_mem _ (List.mem_cons_self _ _))).1

/-! ### C4: defaulted grouping keys appear in the output -/

/-- A (bucket, category key, subcategory key) triple recorded in the
summary tree. -/
def treePresent (tree : List (String × List (CatKey × List (SubKey × Rat))))
    (b : String) (ck : CatKey) (sk : SubKey) : Prop :=
  ∃ cats, odGet tree b = some cats ∧
    ∃ subs, odGet cats ck = some subs ∧ ∃ t, odGet subs sk = some t

theorem treePresent_insRow_self (tree : List (String × List (CatKey × List (SubKey × Rat))))
    (row : SummaryRow) :
    treePresent (insRow tree row) (pyOrStr row.cls_type "expense")
      (row.cls_id, pyOrStr row.cls_name "Unclassified")
      (row.sub_id, pyOrStr row.sub_name "Uncategorized") := by
  unfold treePresent
  exact ⟨_, odGet_updOD_self _ _ _, _, odGet_updOD_self _ _ _, _,
    odGet_updOD_self _ _ _⟩

theorem treePresent_insRow_mono
    (tree : List (String × List (CatKey × List (SubKey × Rat)))) (row : SummaryRow)
    (b : String) (ck : CatKey) (sk : SubKey) :
    treePresent tree b ck sk → treePresent (insRow tree row) b ck sk := by
  unfold treePresent
  rintro ⟨cats, hb, subs, hck, t, hsk⟩
  simp only [insRow]
  by_cases hbb : pyOrStr row.cls_type "expense" = b
  · rw [hbb, odGet_updOD_self, hb]
    simp only [Option.getD_some]
    by_cases hcc : (row.cls_id, pyOrStr row.cls_name "Unclassified") = ck
    · rw [hcc]
      refine ⟨_, rfl, ?_⟩
      rw [odGet_updOD_self, hck]
      simp only [Option.getD_some]
      by_cases hss : (row.sub_id, pyOrStr row.sub_name "Uncategorized") = sk
      · rw [hss]
        exact ⟨_, rfl, _, odGet_updOD_self _ _ _⟩
      · refine ⟨_, rfl, t, ?_⟩
        rw [odGet_updOD_ne _ _ (fun h => hss h.symm), hsk]
    · refine ⟨_, rfl, subs, ?_, t, hsk⟩
      rw [odGet_updOD_ne _ _ (fun h => hcc h.symm), hck]
  · refine ⟨cats, ?_, subs, hck, t, hsk⟩
    rw [odGet_updOD_ne _ _ (fun h => hbb h.symm)]
    exact hb

theorem treePresent_foldl_mono (b : String) (ck : CatKey) (sk : SubKey) :
    ∀ (rows : List SummaryRow) (tree : List (String × List (CatKey × List (SubKey × Rat)))),
      treePresent tree b ck sk → treePresent (rows.foldl insRow tree) b ck sk := by
  intro rows
  induction rows with
  | nil => intro tree h; exact h
  | cons r rs ih =>
    intro tree h
    rw [List.foldl_cons]
    exact ih _ (treePresent_insRow_mono tree r b ck sk h)

theorem treePresent_of_mem :
    ∀ (rows : List SummaryRow)
      (tree0 : List (String × List (CatKey × List (SubKey × Rat)))) (row : SummaryRow),
      row ∈ rows →
      treePresent (rows.foldl insRow tree0) (pyOrStr row.cls_type "expense")
        (row.cls_id, pyOrStr row.cls_name "Unclassified")
        (row.sub_id, pyOrStr row.sub_name "Uncategorized") := by
  intro rows
  induction rows with
  | nil => intro _ _ h; simp at h
  | cons r rs ih =>
    intro tree0 row hrow
    rw [List.foldl_cons]
    rcases List.mem_cons.mp hrow with rfl | hrow
    · exact treePresent_foldl_mono _ _ _ rs _ (treePresent_insRow_self tree0 row)
    · exact ih _ row hrow

theorem buildSection_mem_of_present (ty lb : String)
    (cats : List (CatKey × List (SubKey × Rat))) (ck : CatKey)
    (subs : List (SubKey × Rat)) (sk : SubKey) (t : Rat)
    (hck : odGet cats ck = some subs) (hsk : odGet subs sk = some t) :
    ∃ cat ∈ (buildSection ty lb cats).categories, cat.id = ck.1 ∧ cat.name = ck.2 ∧
      ∃ sub ∈ cat.subcategories, sub.id = sk.1 ∧ sub.name = sk.2 := by
  rw [buildSection_eq]
  have h1 : (ck, subs) ∈ cats := odGet_mem _ _ _ hck
  have h2 := (pySorted_perm (fun a b => keyLE a.1.1 b.1.1) cats).mem_iff.mpr h1
  refine ⟨buildCat ck subs, List.mem_map_of_mem _ h2, rfl, rfl, ?_⟩
  rw [buildCat_eq]
  have h3 : (sk, t) ∈ subs := odGet_mem _ _ _ hsk
  have h4 := (pySorted_perm (fun a b => keyLE a.1.1 b.1.1) subs).mem_iff.mpr h3
  exact ⟨SubOut.mk sk.1 sk.2 t, List.mem_map_of_mem _ h4, rfl, rfl⟩

/-- Decidable form of "the summary output contains this grouping key". -/
def sectionHasRow (secs : List SectionOut) (b : String) (ci : Option Int) (cn : String)
    (si : Option Int) (sn : String) : Bool :=
  secs.any fun sec =>
    decide (sec.type = b) &&
      sec.categories.any fun cat =>
        (decide (cat.id = ci) && decide (cat.name = cn)) &&
          cat.subcategories.any fun sub =>
            decide (sub.id = si) && decide (sub.name = sn)

theorem sectionHasRow_intro (secs : List SectionOut) (b : String) (ci : Option Int)
    (cn : String) (si : Option Int) (sn : String) (sec : SectionOut) (hsec : sec ∈ secs)
    (hty : sec.type = b) (cat : CatOut) (hcat : cat ∈ sec.categories) (hci : cat.id = ci)
    (hcn : cat.name = cn) (sub : SubOut) (hsub : sub ∈ cat.subcategories)
    (hsi : sub.id = si) (hsn : sub.name = sn) :
    sectionHasRow secs b ci cn si sn = true := by
  unfold sectionHasRow
  simp only [List.any_eq_true, Bool.and_eq_true, decide_eq_true_eq]
  exact ⟨sec, hsec, hty, cat, hcat, ⟨hci, hcn⟩, sub, hsub, hsi, hsn⟩

/-- Decidable form of "the monthly output contains this grouping key". -/
def monthlyHasRow (secs : List MSectionOut) (b : String) (ci : Option Int) (cn : String)
    (si : Option Int) (sn : String) : Bool :=
  secs.any fun sec =>
    decide (sec.type = b) &&
      sec.categories.any fun cat =>
        (decide (cat.id = ci) && decide (cat.name = cn)) &&
          cat.subcategories.any fun sub =>
            decide (sub.id = si) && decide (sub.name = sn)

theorem monthlyHasRow_intro (secs : List MSectionOut) (b : String) (ci : Option Int)
    (cn : String) (si : Option Int) (sn : String) (sec : MSectionOut) (hsec : sec ∈ secs)
    (hty : sec.type = b) (cat : MCatOut) (hcat : cat ∈ sec.categories)
    (hci : cat.id = ci) (hcn : cat.name = cn) (sub : MSubOut)
    (hsub : sub ∈ cat.subcategories) (hsi : sub.id = si) (hsn : sub.name = sn) :
    monthlyHasRow secs b ci cn si sn = true := by
  unfold monthlyHasRow
  simp only [List.any_eq_true, Bool.and_eq_true, decide_eq_true_eq]
  exact ⟨sec, hsec, hty, cat, hcat, ⟨hci, hcn⟩, sub, hsub, hsi, hsn⟩

theorem pivot_present_mono (K : PivotKey) (row : MonthlyRow)
    (pivot : List (PivotKey × Months)) :
    (∃ mt, odGet pivot K = some mt) →
      ∃ mt, odGet (insPivotRow pivot row) K = some mt := by
  rintro ⟨mt, h⟩
  simp only [insPivotRow]
  by_cases hkey : K = (pyOrStr row.cls_type "expense",
      (row.cls_id, pyOrStr row.cls_name "Unclassified"),
      (row.sub_id, pyOrStr row.sub_name "Uncategorized"))
  · subst hkey
    exact ⟨_, odGet_updOD_self _ _ _⟩
  · refine ⟨mt, ?_⟩
    rw [odGet_updOD_ne _ _ hkey]
    exact h

theorem pivot_present_foldl_mono (K : PivotKey) :
    ∀ (mrows : List MonthlyRow) (pivot : List (PivotKey × Months)),
      (∃ mt, odGet pivot K = some mt) →
      ∃ mt, odGet (mrows.foldl insPivotRow pivot) K = some mt := by
  intro mrows
  induction mrows with
  | nil => intro pivot h; exact h
  | cons r rs ih =>
    intro pivot h
    rw [List.foldl_cons]
    exact ih _ (pivot_present_mono K r pivot h)

theorem pivot_present_of_mem :
    ∀ (mrows : List MonthlyRow) (p0 : List (PivotKey × Months)) (row : MonthlyRow),
      row ∈ mrows →
      ∃ mt, odGet (mrows.foldl insPivotRow p0)
        (pyOrStr row.cls_type "expense",
          (row.cls_id, pyOrStr row.cls_name "Unclassified"),
          (row.sub_id, pyOrStr row.sub_name "Uncategorized")) = some mt := by
  intro mrows
  induction mrows with
  | nil => intro _ _ h; simp at h
  | cons r rs ih =>
    intro p0 row hrow
    rw [List.foldl_cons]
    rcases List.mem_cons.mp hrow with rfl | hrow
    · exact pivot_present_foldl_mono _ rs _ ⟨_, odGet_updOD_self _ _ _⟩
    · exact ih _ row hrow

/-- A (category key, subcategory key) pair recorded in the per-section
`cats_map`. -/
def catsPresent (cm : List (CatKey × MCatData)) (ck : CatKey) (sk : SubKey) : Prop :=
  ∃ cd, odGet cm ck = some cd ∧ ∃ ms, odGet cd.subs sk = some ms

theorem catsPresent_step_mono (ty : String) (e : PivotKey × Months)
    (cm : List (CatKey × MCatData)) (ck : CatKey) (sk : SubKey) :
    catsPresent cm ck sk →
      catsPresent
        (if e.1.1 = ty then
          updOD cm e.1.2.1 (fun o =>
            let cd := o.getD ⟨[], zeroMonths⟩
            ⟨updOD cd.subs e.1.2.2 (fun so => addMonths (so.getD zeroMonths) e.2),
             addMonths cd.months e.2⟩)
        else cm) ck sk := by
  unfold catsPresent
  rintro ⟨cd, hcd, ms, hms⟩
  by_cases hty : e.1.1 = ty
  · rw [if_pos hty]
    by_cases hck : ck = e.1.2.1
    · subst hck
      refine ⟨_, odGet_updOD_self _ _ _, ?_⟩
      rw [hcd]
      simp only [Option.getD_some]
      by_cases hsk : sk = e.1.2.2
      · subst hsk
        exact ⟨_, odGet_updOD_self _ _ _⟩
      · refine ⟨ms, ?_⟩
        rw [odGet_updOD_ne _ _ hsk]
        exact hms
    · refine ⟨cd, ?_, ms, hms⟩
      rw [odGet_updOD_ne _ _ hck]
      exact hcd
  · rw [if_neg hty]
    exact ⟨cd, hcd, ms, hms⟩

theorem catsPresent_foldl_mono (ty : String) (ck : CatKey) (sk : SubKey) :
    ∀ (entries : List (PivotKey × Months)) (acc : List (CatKey × MCatData)),
      catsPresent acc ck sk →
      catsPresent
        (entries.foldl
          (fun cats_map e =>
            if e.1.1 = ty then
              updOD cats_map e.1.2.1 (fun o =>
                let cd := o.getD ⟨[], zeroMonths⟩
                ⟨updOD cd.subs e.1.2.2 (fun so => addMonths (so.getD zeroMonths) e.2),
                 addMonths cd.months e.2⟩)
            else cats_map) acc) ck sk := by
  intro entries
  induction entries with
  | nil => intro acc h; exact h
  | cons e es ih =>
    intro acc h
    rw [List.foldl_cons]
    exact ih _ (catsPresent_step_mono ty e acc ck sk h)

theorem catsPresent_of_mem (ty : String) :
    ∀ (pivot : List (PivotKey × Months)) (acc : List (CatKey × MCatData)) (K : PivotKey)
      (mt : Months), (K, mt) ∈ pivot → K.1 = ty →
      catsPresent
        (pivot.foldl
          (fun cats_map e =>
            if e.1.1 = ty then
              updOD cats_map e.1.2.1 (fun o =>
                let cd := o.getD ⟨[], zeroMonths⟩
                ⟨updOD cd.subs e.1.2.2 (fun so => addMonths (so.getD zeroMonths) e.2),
                 addMonths cd.months e.2⟩)
            else cats_map) acc) K.2.1 K.2.2 := by
  intro pivot
  induction pivot with
  | nil => intro _ _ _ h; simp at h
  | cons e es ih =>
    intro acc K mt hmem hty
    rw [List.foldl_cons]
    rcases List.mem_cons.mp hmem with heq | hmem
    · obtain rfl : e = (K, mt) := heq.symm
      apply catsPresent_foldl_mono ty K.2.1 K.2.2 es
      rw [if_pos hty]
      exact ⟨_, odGet_updOD_self _ _ _, _, odGet_updOD_self _ _ _⟩
    · exact ih _ K mt hmem hty

theorem buildMSection_mem_of_present (ty lb : String) (pivot : List (PivotKey × Months))
    (ck : CatKey) (cd : MCatData) (sk : SubKey) (ms : Months)
    (h1 : odGet (collectCats ty pivot) ck = some cd) (h2 : odGet cd.subs sk = some ms) :
    ∃ cat ∈ (buildMSection ty lb pivot).categories, cat.id = ck.1 ∧ cat.name = ck.2 ∧
      ∃ sub ∈ cat.subcategories, sub.id = sk.1 ∧ sub.name = sk.2 := by
  rw [buildMSection_eq]
  have hmem : (ck, cd) ∈ collectCats ty pivot := odGet_mem _ _ _ h1
  have hmem' := (pySorted_perm (fun a b => keyLE a.1.1 b.1.1)
    (collectCats ty pivot)).mem_iff.mpr hmem
  refine ⟨buildMCat ck cd, List.mem_map_of_mem _ hmem', rfl, rfl, ?_⟩
  unfold buildMCat
  have hs : (sk, ms) ∈ cd.subs := odGet_mem _ _ _ h2
  have hs' := (pySorted_perm (fun a b => keyLE a.1.1 b.1.1) cd.subs).mem_iff.mpr hs
  exact ⟨MSubOut.mk sk.1 sk.2 ms (ytdOf ms), List.mem_map_of_mem _ hs', rfl, rfl⟩

/-- C4: every aggregated row reaches the report output under the
defaulting rules — an unset category type lands in the `expense` bucket,
an unset category identity in the synthetic null-id `Unclassified`
category, and an unset subcategory identity under the null-id
`Uncategorized` entry; the row is never dropped (for rows whose defaulted
bucket is `income` or `expense`, the only buckets the reports render,
which is all rows the views' queryset admits). -/
theorem c4_grouping_defaults_not_dropped (rows : List SummaryRow)
    (mrows : List MonthlyRow) :
    (∀ row ∈ rows,
      pyOrStr row.cls_type "expense" = "income" ∨
        pyOrStr row.cls_type "expense" = "expense" →
      sectionHasRow (_build_summary_sections rows).1 (pyOrStr row.cls_type "expense")
        row.cls_id (pyOrStr row.cls_name "Unclassified") row.sub_id
        (pyOrStr row.sub_name "Uncategorized") = true) ∧
      (∀ row ∈ mrows,
        pyOrStr row.cls_type "expense" = "income" ∨
          pyOrStr row.cls_type "expense" = "expense" →
        monthlyHasRow (monthlyReport mrows).sections (pyOrStr row.cls_type "expense")
          row.cls_id (pyOrStr row.cls_name "Unclassified") row.sub_id
          (pyOrStr row.sub_name "Uncategorized") = true) := by
  constructor
  · intro row hrow hbk
    have hpres := treePresent_of_mem rows [] row hrow
    unfold treePresent at hpres
    obtain ⟨cats, hb, subs, hck, t, hsk⟩ := hpres
    rcases hbk with hbk | hbk
    · rw [hbk] at hb
      have hcats : (odGet (rows.foldl insRow []) "income").getD [] = cats := by
        rw [hb]
        rfl
      obtain ⟨cat, hcat, hci, hcn, sub, hsub, hsi, hsn⟩ :=
        buildSection_mem_of_present "income" "Revenues" cats _ subs _ t hck hsk
      refine sectionHasRow_intro _ _ _ _ _ _
        (buildSection "income" "Revenues"
          ((odGet (rows.foldl insRow []) "income").getD []))
        (List.mem_cons_self _ _) hbk.symm cat ?_ hci hcn sub hsub hsi hsn
      rw [hcats]
      exact hcat
    · rw [hbk] at hb
      have hcats : (odGet (rows.foldl insRow []) "expense").getD [] = cats := by
        rw [hb]
        rfl
      obtain ⟨cat, hcat, hci, hcn, sub, hsub, hsi, hsn⟩ :=
        buildSection_mem_of_present "expense" "Expenses" cats _ subs _ t hck hsk
      refine sectionHasRow_intro _ _ _ _ _ _
        (buildSection "expense" "Expenses"
          ((odGet (rows.foldl insRow []) "expense").getD []))
        (List.mem_cons_of_mem _ (List.mem_cons_self _ _)) hbk.symm cat ?_ hci hcn sub
        hsub hsi hsn
      rw [hcats]
      exact hcat
  · intro row hrow hbk
    obtain ⟨mt, hmt⟩ := pivot_present_of_mem mrows [] row hrow
    have hmem := odGet_mem _ _ _ hmt
    rcases hbk with hbk | hbk
    · have hpres := catsPresent_of_mem "income" (mrows.foldl insPivotRow []) [] _ mt
        hmem hbk
      unfold catsPresent at hpres
      obtain ⟨cd, hcd, ms, hms⟩ := hpres
      obtain ⟨cat, hcat, hci, hcn, sub, hsub, hsi, hsn⟩ :=
        buildMSection_mem_of_present "income" "Revenues" (mrows.foldl insPivotRow [])
          _ cd _ ms hcd hms
      exact monthlyHasRow_intro _ _ _ _ _ _
        (buildMSection "income" "Revenues" (mrows.foldl insPivotRow []))
        (List.mem_cons_self _ _) hbk.symm cat hcat hci hcn sub hsub hsi hsn
    · have hpres := catsPresent_of_mem "expense" (mrows.foldl insPivotRow []) [] _ mt
        hmem hbk
      unfold catsPresent at hpres
      obtain ⟨cd, hcd, ms, hms⟩ := hpres
      obtain ⟨cat, hcat, hci, hcn, sub, hsub, hsi, hsn⟩ :=
        buildMSection_mem_of_present "expense" "Expenses" (mrows.foldl insPivotRow [])
          _ cd _ ms hcd hms
      exact monthlyHasRow_intro _ _ _ _ _ _
        (buildMSection "expense" "Expenses" (mrows.foldl insPivotRow []))
        (List.mem_cons_of_mem _ (List.mem_cons_self _ _)) hbk.symm cat hcat hci hcn sub
        hsub hsi hsn

/-- A summary row with unset type, unset category identity and unset
subcategory identity. -/
def exUnsetRow : SummaryRow := ⟨none, none, none, none, none, some 4⟩

/-- C4 witness: a fully-unset row lands in the expense bucket under the
null-id `Unclassified` category and null-id `Uncategorized` subcategory,
in both report modes. -/
theorem c4_grouping_defaults_not_dropped_witness :
    sectionHasRow (_build_summary_sections [exUnsetRow]).1 "expense" none "Unclassified"
        none "Uncategorized" = true ∧
      monthlyHasRow (monthlyReport [⟨0, none, none, none, none, none, some 4⟩]).sections
        "expense" none "Unclassified" none "Uncategorized" = true := by
  constructor
  · exact (c4_grouping_defaults_not_dropped [exUnsetRow] []).1 exUnsetRow
      (List.mem_cons_self _ _) (Or.inr rfl)
  · exact (c4_grouping_defaults_not_dropped []
      [⟨0, none, none, none, none, none, some 4⟩]).2 _
      (List.mem_cons_self _ _) (Or.inr rfl)

end Budget
